import Mathlib

/-!
Verification development for the `acquire-rs` rules engine.

The definitions below are a shallow embedding of the Rust sources
(`src/acquire/src/grid.rs`, `lib.rs`, `stock.rs`, `money.rs`, `chain.rs`,
`player.rs`, `tile.rs`) into Lean:

* machine integers (`u8`, `u16`, `u32`, `i8`) are modelled as `Nat` / `Int`
  (all quantities handled by the proved theorems stay far below the machine
  bounds, and the subtractions performed by the code are guarded);
* the sparse `HashMap<Point, Slot>` board is modelled as an association list
  with HashMap insert semantics (a fresh binding shadows and removes any old
  binding for the same key);
* functions that can `panic!` / `.expect` / index out of bounds are embedded
  as `Option`-returning functions, `none` marking the panic;
* the breadth-first search of `Grid::fill_chain` is written with an explicit
  fuel parameter; every invariant below is proved for all fuel values.
-/

/-- `Chain`: the seven hotel chains, in the declaration order of `chain.rs`
(which is also the order of `CHAIN_ARRAY` and the derived `Ord`). -/
inductive Chain where
  | Tower
  | Luxor
  | American
  | Worldwide
  | Festival
  | Continental
  | Imperial
deriving DecidableEq, Fintype, Repr

/-- `CHAIN_ARRAY` from `chain.rs`. -/
def CHAIN_ARRAY : List Chain :=
  [.Tower, .Luxor, .American, .Worldwide, .Festival, .Continental, .Imperial]

/-- Board coordinate (`Point` in `grid.rs`); the Rust `i8` components are
modelled as unbounded integers. -/
structure Point where
  x : Int
  y : Int
deriving DecidableEq, Repr

/-- A tile is a wrapped coordinate (`Tile` in `tile.rs`). -/
structure Tile where
  pt : Point
deriving DecidableEq, Repr

/-- Slot legality (`Legality` in `grid.rs`). -/
inductive Legality where
  | Legal
  | TemporarilyIllegal
  | PermanentIllegal
deriving DecidableEq, Repr

/-- Board slot contents (`Slot` in `grid.rs`). -/
inductive Slot where
  | Empty (legality : Legality)
  | NoChain
  | Limbo
  | Chain (chain : Chain)
deriving DecidableEq, Repr

/-- `MergingChains` from `lib.rs`. -/
structure MergingChains where
  merging_chain : Chain
  defunct_chain : Chain
  num_remaining_players_to_merge : Option Nat
deriving DecidableEq, Repr

/-- `PlaceTileResult` from `grid.rs`. -/
inductive PlaceTileResult where
  | Proceed
  | Illegal (allow_trade_in : Bool)
  | SelectAvailableChain
  | DecideTieBreak (tied_chains : List Chain)
  | Merge (mergers : List MergingChains)
deriving DecidableEq, Repr

/-- The board's sparse slot storage: an association list with the lookup
semantics of `HashMap<Point, Slot>`. -/
abbrev SlotMap := List (Point × Slot)

/-- `HashMap::get`, defaulting handled by `Grid::get` below. -/
def mapFind? (m : SlotMap) (pt : Point) : Option Slot :=
  (m.find? (fun e => e.1 = pt)).map Prod.snd

/-- `HashMap::insert`: the new binding shadows (and here erases) any previous
binding of the same key. -/
def mapInsert (m : SlotMap) (pt : Point) (s : Slot) : SlotMap :=
  (pt, s) :: m.filter (fun e => ¬ (e.1 = pt))

/-- `SAFE_CHAIN_SIZE` from `grid.rs`. -/
def SAFE_CHAIN_SIZE : Nat := 11

/-- `GAME_ENDING_CHAIN_SIZE` from `grid.rs`. -/
def GAME_ENDING_CHAIN_SIZE : Nat := 41

/-- `Grid` from `grid.rs`: board dimensions, sparse slot map, per-chain live
size table (`ChainTable<u16>` modelled as a function), and the most recently
placed tile. -/
structure Grid where
  width : Nat
  height : Nat
  data : SlotMap
  chain_sizes : Chain → Nat
  previously_placed_tile_pt : Option Point

/-- `Grid::new`. -/
def Grid.new (width height : Nat) : Grid :=
  { width := width, height := height, data := [],
    chain_sizes := fun _ => 0, previously_placed_tile_pt := none }

/-- `Grid::chain_size`. -/
def Grid.chain_size (g : Grid) (c : Chain) : Nat := g.chain_sizes c

/-- `Grid::all_chains_are_safe` (note: iterates over all seven table entries,
including never-founded chains of size 0). -/
def Grid.all_chains_are_safe (g : Grid) : Bool :=
  CHAIN_ARRAY.all (fun c => SAFE_CHAIN_SIZE ≤ g.chain_sizes c)

/-- `Grid::num_safe_chains`. -/
def Grid.num_safe_chains (g : Grid) : Nat :=
  (CHAIN_ARRAY.filter (fun c => SAFE_CHAIN_SIZE ≤ g.chain_sizes c)).length

/-- `Grid::game_ending_chain_exists`. -/
def Grid.game_ending_chain_exists (g : Grid) : Bool :=
  CHAIN_ARRAY.any (fun c => GAME_ENDING_CHAIN_SIZE ≤ g.chain_sizes c)

/-- `Grid::is_pt_out_of_bounds`, with the comparisons exactly as written in
the source (`>` rather than `>=` against `width`/`height`). -/
def Grid.is_pt_out_of_bounds (g : Grid) (pt : Point) : Bool :=
  pt.x < 0 ∨ pt.y < 0 ∨ (g.width : Int) < pt.x ∨ (g.height : Int) < pt.y

/-- `Grid::get`: total, defaulting to `Empty(Legal)` for absent keys. -/
def Grid.get (g : Grid) (pt : Point) : Slot :=
  match mapFind? g.data pt with
  | some s => s
  | none => Slot.Empty Legality.Legal

/-- `Grid::set_slot`: writes a slot and incrementally maintains the
per-chain size table (decrement the overwritten chain, increment the new). -/
def Grid.set_slot (g : Grid) (pt : Point) (slot : Slot) : Grid :=
  let sizes1 :=
    match g.get pt with
    | Slot.Chain c => Function.update g.chain_sizes c (g.chain_sizes c - 1)
    | _ => g.chain_sizes
  let sizes2 :=
    match slot with
    | Slot.Chain c => Function.update sizes1 c (sizes1 c + 1)
    | _ => sizes1
  { g with data := mapInsert g.data pt slot, chain_sizes := sizes2 }

/-- `Grid::neighbouring_points`: the `[N, W, S, E]` array of `grid.rs`. -/
def Grid.neighbouring_points (_g : Grid) (pt : Point) : List Point :=
  [⟨pt.x, pt.y + 1⟩, ⟨pt.x + 1, pt.y⟩, ⟨pt.x, pt.y - 1⟩, ⟨pt.x - 1, pt.y⟩]

/-- `Grid::neighbours`: the slots at the four orthogonal neighbours. -/
def Grid.neighbours (g : Grid) (pt : Point) : List Slot :=
  (g.neighbouring_points pt).map g.get

/-- `itertools::unique`: deduplicate keeping the first occurrence of each
element, in order. -/
def uniqueChains : List Chain → List Chain :=
  go []
where
  go (seen : List Chain) : List Chain → List Chain
    | [] => []
    | c :: rest => if c ∈ seen then go seen rest else c :: go (c :: seen) rest

/-- `Grid::chains_in_slots`: the distinct chains present in a slot slice. -/
def chains_in_slots (slots : List Slot) : List Chain :=
  uniqueChains (slots.filterMap (fun s =>
    match s with
    | Slot.Chain c => some c
    | _ => none))

/-- `Grid::num_nochains_chains_in_slots`. -/
def num_nochains_chains_in_slots (slots : List Slot) : Nat :=
  slots.foldl (fun acc s => acc + match s with | Slot.NoChain => 1 | _ => 0) 0

/-- `Grid::num_available_chains` (table entries of size 0). -/
def Grid.num_available_chains (g : Grid) : Nat :=
  (CHAIN_ARRAY.filter (fun c => g.chain_sizes c = 0)).length

/-- `Grid::existing_chains` (table entries of positive size, in
`CHAIN_ARRAY` order). -/
def Grid.existing_chains (g : Grid) : List Chain :=
  CHAIN_ARRAY.filter (fun c => 0 < g.chain_sizes c)

/-- `Grid::available_chains` (table entries of size 0, in `CHAIN_ARRAY`
order). -/
def Grid.available_chains (g : Grid) : List Chain :=
  CHAIN_ARRAY.filter (fun c => g.chain_sizes c = 0)

/-- `Grid::permanently_illegal_possible`. -/
def Grid.permanently_illegal_possible (g : Grid) : Bool :=
  1 < g.num_safe_chains

/-- `Grid::temporary_illegal_possible`. -/
def Grid.temporary_illegal_possible (g : Grid) : Bool :=
  g.num_available_chains = 0

/-- `Grid::_is_illegal_tile`: returns `(illegal, permanent)`. -/
def Grid.is_illegal_tile (g : Grid) (tile : Tile) : Bool × Bool :=
  let permanently_illegal_possible := g.permanently_illegal_possible
  let temporary_illegal_possible := g.temporary_illegal_possible
  if ¬ permanently_illegal_possible ∧ ¬ temporary_illegal_possible then
    (false, false)
  else
    let neighbours := g.neighbours tile.pt
    let neighbouring_chains := chains_in_slots neighbours
    match neighbouring_chains with
    | _ :: _ :: _ =>
      if ¬ permanently_illegal_possible then (false, false)
      else if 1 < (neighbouring_chains.filter
          (fun c => SAFE_CHAIN_SIZE ≤ g.chain_size c)).length then
        (true, true)
      else (false, false)
    | [] =>
      if ¬ temporary_illegal_possible then (false, false)
      else if 0 < num_nochains_chains_in_slots neighbours then
        if g.num_available_chains = 0 then (true, false) else (false, false)
      else (false, false)
    | [_] => (false, false)

/-- `Grid::update_legality_of_slot`: re-derives the legality of an empty
slot; a `PermanentIllegal` slot is never touched. -/
def Grid.update_legality_of_slot (g : Grid) (pt : Point) : Grid :=
  match g.get pt with
  | Slot.Empty Legality.PermanentIllegal => g
  | Slot.Empty _ =>
    let r := g.is_illegal_tile ⟨pt⟩
    if r.1 then
      if r.2 then g.set_slot pt (Slot.Empty Legality.PermanentIllegal)
      else g.set_slot pt (Slot.Empty Legality.TemporarilyIllegal)
    else g
  | _ => g

/-- `Grid::update_legality_of_neighbours`. -/
def Grid.update_legality_of_neighbours (g : Grid) (pt : Point) : Grid :=
  (g.neighbouring_points pt).foldl (fun h q => h.update_legality_of_slot q) g

/-- `Grid::update_chain_of_neighbours`: absorbs `NoChain`/`Limbo` neighbours
directly into `chain` (single step, no flood). -/
def Grid.update_chain_of_neighbours (g : Grid) (pt : Point) (chain : Chain) : Grid :=
  (g.neighbouring_points pt).foldl
    (fun h q =>
      match h.get q with
      | Slot.Limbo => h.set_slot q (Slot.Chain chain)
      | Slot.NoChain => h.set_slot q (Slot.Chain chain)
      | _ => h) g

/-- Stable ascending insertion used by `sortByKey`. -/
def insertByKey (key : Chain → Nat) (c : Chain) : List Chain → List Chain
  | [] => [c]
  | x :: xs => if key c ≤ key x then c :: x :: xs else x :: insertByKey key c xs

/-- `Vec::sort_by_key`: a stable sort in ascending key order. -/
def sortByKey (key : Chain → Nat) : List Chain → List Chain
  | [] => []
  | x :: xs => insertByKey key x (sortByKey key xs)

/-- The merger branch of `Grid::place` (two or more neighbouring chains):
the largest chain by current size survives, the remaining chains are sorted
by `sort_by_key` on their size (ascending - the source's comment says
descending but `sort_by_key` sorts ascending), the tile is parked in `Limbo`,
and a tie for largest requests a tie-break.  `none` models the impossible
empty-`largest_chains` index panic. -/
def Grid.placeMerger (g : Grid) (tile : Tile) (neighbouring_chains : List Chain) :
    Option (PlaceTileResult × Grid) :=
  match neighbouring_chains.filter
      (fun c => g.chain_size c =
        (neighbouring_chains.map g.chain_size).foldr Nat.max 0) with
  | [] => none
  | largest_chain :: rest =>
    if 1 < (largest_chain :: rest).length then
      some (PlaceTileResult.DecideTieBreak (largest_chain :: rest),
        { g.set_slot tile.pt Slot.Limbo with
            previously_placed_tile_pt := some tile.pt })
    else
      some (PlaceTileResult.Merge
        ((sortByKey g.chain_size
            (neighbouring_chains.filter (fun c => ¬ (c = largest_chain)))).map
          (fun c => MergingChains.mk largest_chain c none)),
        { g.set_slot tile.pt Slot.Limbo with
            previously_placed_tile_pt := some tile.pt })

/-- The zero-neighbouring-chain branch of `Grid::place`: mark the slot
`NoChain`, record it, re-derive neighbour legality, and request a chain
selection when the tile touches at least one other ownerless tile. -/
def Grid.placeNoChain (g : Grid) (tile : Tile) :
    Option (PlaceTileResult × Grid) :=
  if 0 < num_nochains_chains_in_slots (g.neighbours tile.pt) then
    some (PlaceTileResult.SelectAvailableChain,
      ({ g.set_slot tile.pt Slot.NoChain with
           previously_placed_tile_pt := some tile.pt
         }).update_legality_of_neighbours tile.pt)
  else
    some (PlaceTileResult.Proceed,
      ({ g.set_slot tile.pt Slot.NoChain with
           previously_placed_tile_pt := some tile.pt
         }).update_legality_of_neighbours tile.pt)

/-- The single-neighbouring-chain branch of `Grid::place`: absorb the tile
and its `NoChain`/`Limbo` neighbours into the chain. -/
def Grid.placeExtend (g : Grid) (tile : Tile) (chain : Chain) :
    Option (PlaceTileResult × Grid) :=
  some (PlaceTileResult.Proceed,
    { (((g.set_slot tile.pt (Slot.Chain chain)).update_legality_of_neighbours
          tile.pt).update_chain_of_neighbours tile.pt chain) with
        previously_placed_tile_pt := some tile.pt })

/-- `Grid::place`: `none` models the out-of-bounds `panic!`. -/
def Grid.place (g : Grid) (tile : Tile) : Option (PlaceTileResult × Grid) :=
  if g.is_pt_out_of_bounds tile.pt then none
  else
    match g.get tile.pt with
    | Slot.Empty Legality.TemporarilyIllegal =>
      some (PlaceTileResult.Illegal false, g)
    | Slot.Empty Legality.PermanentIllegal =>
      some (PlaceTileResult.Illegal true, g)
    | _ =>
      match chains_in_slots (g.neighbours tile.pt) with
      | c1 :: c2 :: cs => g.placeMerger tile (c1 :: c2 :: cs)
      | [] => g.placeNoChain tile
      | [chain] => g.placeExtend tile chain

/-- `Grid::update_legality_of_all_nochains`. -/
def Grid.update_legality_of_all_nochains (g : Grid) : Grid :=
  let nochain_pts := (g.data.filter (fun e =>
      match e.2 with
      | Slot.NoChain => true
      | Slot.Limbo => true
      | _ => false)).map Prod.fst
  nochain_pts.foldl (fun h pt => h.update_legality_of_neighbours pt) g

/-- The BFS work loop of `Grid::fill_chain`, with explicit fuel.  The queue
is FIFO (`VecDeque::pop_front` / `push_back`); `visited` is consed; empty
slots that are not permanently illegal are collected for the post-pass. -/
def fillLoop (chain : Chain) :
    Nat → Grid → List Point → List Point → List Point → Grid × List Point
  | 0, g, _, _, empties => (g, empties)
  | Nat.succ fuel, g, stack, visited, empties =>
    match stack with
    | [] => (g, empties)
    | pt :: rest =>
      let visited' := pt :: visited
      match g.get pt with
      | Slot.Empty Legality.Legal =>
        fillLoop chain fuel g rest visited' (empties ++ [pt])
      | Slot.Empty Legality.TemporarilyIllegal =>
        fillLoop chain fuel g rest visited' (empties ++ [pt])
      | Slot.Empty Legality.PermanentIllegal =>
        fillLoop chain fuel g rest visited' empties
      | s =>
        let g' :=
          match s with
          | Slot.Chain existing_chain =>
            if existing_chain = chain then g else g.set_slot pt (Slot.Chain chain)
          | _ => g.set_slot pt (Slot.Chain chain)
        let pushes := (g'.neighbouring_points pt).filter (fun q => ¬ (q ∈ visited'))
        fillLoop chain fuel g' (rest ++ pushes) visited' empties

/-- Fuel budget for `fill_chain`; the loop stops as soon as its queue is
empty, so surplus fuel is never consumed. -/
def fillChainFuel : Nat := 100000

/-- `Grid::fill_chain`: BFS flood fill followed by the two conditional
legality re-derivation passes. -/
def Grid.fill_chain (g : Grid) (pt : Point) (chain : Chain) : Grid :=
  let r := fillLoop chain fillChainFuel g [pt] [] []
  let g1 := r.1
  let g2 :=
    if g1.permanently_illegal_possible then
      r.2.foldl (fun h q => h.update_legality_of_slot q) g1
    else g1
  if g2.temporary_illegal_possible then g2.update_legality_of_all_nochains
  else g2

set_option maxRecDepth 40000

/-- Convenience: run `place` and keep the grid (panic leaves it unchanged). -/
def placeD (g : Grid) (t : Tile) : Grid :=
  match g.place t with
  | some (_, g') => g'
  | none => g

/-- Place a sequence of tiles. -/
def seqPlace (g : Grid) (l : List Tile) : Grid := l.foldl placeD g

/-- A single grid-mutating operation of the public `Grid` interface. -/
inductive GridOp where
  | place (t : Tile)
  | fill (pt : Point) (chain : Chain)

/-- Apply one `GridOp`. -/
def applyGridOp (g : Grid) : GridOp → Grid
  | GridOp.place t => placeD g t
  | GridOp.fill pt c => g.fill_chain pt c

/-- Apply a sequence of `GridOp`s. -/
def applyGridOps (g : Grid) (ops : List GridOp) : Grid := ops.foldl applyGridOp g

/-- The grid used against claim C1: chains Tower (size 2), Luxor (size 3) and
American (size 4) surround the empty point (2,2) to its north, east and
south. -/
def c1Grid : Grid :=
  let g0 := seqPlace (Grid.new 12 9) [⟨⟨2,3⟩⟩, ⟨⟨2,4⟩⟩]
  let g1 := g0.fill_chain ⟨2,4⟩ Chain.Tower
  let g2 := seqPlace g1 [⟨⟨3,2⟩⟩, ⟨⟨4,2⟩⟩, ⟨⟨5,2⟩⟩]
  let g3 := g2.fill_chain ⟨5,2⟩ Chain.Luxor
  let g4 := seqPlace g3 [⟨⟨2,1⟩⟩, ⟨⟨2,0⟩⟩, ⟨⟨1,0⟩⟩, ⟨⟨0,0⟩⟩]
  g4.fill_chain ⟨0,0⟩ Chain.American

/-- C1: the claim states that the defunct chains of a `Merge` result are
ordered by descending current size.  The code (`grid.rs` line 119) sorts them
by `sort_by_key(|chain| self.chain_sizes.get(chain))`, i.e. in ASCENDING size
order, contradicting both the spec sentence and the comment directly above
that line ("sort non-largest chains into a list in descending chain size
order").  At `c1Grid` the placed tile (2,2) touches Tower (size 2), Luxor
(size 3) and American (size 4); the unique largest chain American survives,
but the defunct list comes back as [Tower, Luxor] - ascending sizes [2, 3] -
where the claim requires [Luxor, Tower]. -/
theorem C1_merge_defunct_order_is_ascending :
    c1Grid.chain_size Chain.Tower = 2 ∧
    c1Grid.chain_size Chain.Luxor = 3 ∧
    c1Grid.chain_size Chain.American = 4 ∧
    (c1Grid.place ⟨⟨2,2⟩⟩).map Prod.fst =
      some (PlaceTileResult.Merge
        [⟨Chain.American, Chain.Tower, none⟩,
         ⟨Chain.American, Chain.Luxor, none⟩]) := by
  refine ⟨by decide, by decide, by decide, by decide⟩

/-- C7: placing on an in-bounds empty slot whose legality is
`TemporarilyIllegal` or `PermanentIllegal` returns
`Illegal { allow_trade_in }` with `allow_trade_in = true` exactly for
`PermanentIllegal`, and returns the grid itself, completely unchanged. -/
theorem C7_place_illegal_slot_no_mutation (g : Grid) (t : Tile)
    (hin : g.is_pt_out_of_bounds t.pt = false) (l : Legality)
    (hl : g.get t.pt = Slot.Empty l) :
    (l = Legality.TemporarilyIllegal →
      g.place t = some (PlaceTileResult.Illegal false, g)) ∧
    (l = Legality.PermanentIllegal →
      g.place t = some (PlaceTileResult.Illegal true, g)) := by
  constructor <;> rintro rfl <;> simp [Grid.place, hin, hl]

/-- Witness for C7 at a concrete grid holding one temporarily illegal and
one permanently illegal empty slot. -/
def c7Grid : Grid :=
  { width := 12, height := 9,
    data := [(⟨0,0⟩, Slot.Empty Legality.TemporarilyIllegal),
             (⟨5,5⟩, Slot.Empty Legality.PermanentIllegal)],
    chain_sizes := fun _ => 0, previously_placed_tile_pt := none }

theorem C7_witness :
    c7Grid.place ⟨⟨0,0⟩⟩ = some (PlaceTileResult.Illegal false, c7Grid) ∧
    c7Grid.place ⟨⟨5,5⟩⟩ = some (PlaceTileResult.Illegal true, c7Grid) :=
  ⟨(C7_place_illegal_slot_no_mutation c7Grid ⟨⟨0,0⟩⟩ (by decide)
      Legality.TemporarilyIllegal (by decide)).1 rfl,
   (C7_place_illegal_slot_no_mutation c7Grid ⟨⟨5,5⟩⟩ (by decide)
      Legality.PermanentIllegal (by decide)).2 rfl⟩

/-- C8: the claim states that placing at any coordinate with `x ≥ width` (or
`y ≥ height`) panics.  `Grid::is_pt_out_of_bounds` compares with `>` instead
of `>=`, so the boundary coordinate `x = width` is NOT treated as out of
bounds: on the default 12x9 grid, `place` at (12,0) does not panic, proceeds,
and writes a `NoChain` slot at the out-of-bounds coordinate. -/
theorem C8_boundary_coordinate_not_caught :
    (Grid.new 12 9).is_pt_out_of_bounds ⟨12, 0⟩ = false ∧
    ((Grid.new 12 9).place ⟨⟨12, 0⟩⟩).map
        (fun r => (r.1, r.2.get ⟨12, 0⟩)) =
      some (PlaceTileResult.Proceed, Slot.NoChain) := by
  exact ⟨by decide, by decide⟩

/-- C10: `Grid::get` is total and defaults to `Empty(Legal)`: any coordinate
absent from the sparse slot map - in particular every out-of-bounds
coordinate, which is never inserted - reads back as a legal empty slot. -/
theorem C10_get_defaults_to_legal_empty (g : Grid) (pt : Point)
    (h : mapFind? g.data pt = none) :
    g.get pt = Slot.Empty Legality.Legal := by
  simp [Grid.get, h]

/-- Witness for C10: an out-of-bounds coordinate on a non-empty board. -/
theorem C10_witness :
    c1Grid.get ⟨-3, 100⟩ = Slot.Empty Legality.Legal :=
  C10_get_defaults_to_legal_empty c1Grid ⟨-3, 100⟩ (by decide)

/-- A slot is occupied when it is not `Empty`. -/
def isOccupied : Slot → Bool
  | Slot.Empty _ => false
  | _ => true

/-- 1 for an occupied slot, 0 for an empty one. -/
def occFlag (s : Slot) : Nat := if isOccupied s then 1 else 0

/-- Number of map entries currently holding chain `c`. -/
def chainCount (g : Grid) (c : Chain) : Nat :=
  g.data.countP (fun e => e.2 = Slot.Chain c)

/-- Number of occupied (non-`Empty`) entries of the slot map. -/
def occupiedCount (g : Grid) : Nat :=
  g.data.countP (fun e => isOccupied e.2)

/-- The slot map binds each coordinate at most once (true of a `HashMap`,
preserved by `mapInsert`). -/
def keysNodup (g : Grid) : Prop := (g.data.map Prod.fst).Nodup

/-- Well-formedness: unique keys plus the chain-size table agreeing with the
actual per-chain slot counts. -/
def GridWf (g : Grid) : Prop :=
  keysNodup g ∧ ∀ c, g.chain_sizes c = chainCount g c

theorem find?_filter_ne (m : SlotMap) (pt q : Point) (hne : ¬ q = pt) :
    (m.filter (fun e => ¬ (e.1 = pt))).find? (fun e => e.1 = q) =
    m.find? (fun e => e.1 = q) := by
  have hfun : (fun e : Point × Slot => decide ¬(e.1 = pt)) =
      (fun e => !decide (e.1 = pt)) := by
    funext e; simp [decide_not]
  rw [hfun, List.find?_filter]
  congr 1
  funext a
  by_cases h : a.1 = q
  · have hp : ¬ a.1 = pt := by rw [h]; exact hne
    simp [h, hp, hne]
  · simp [h]

theorem mapFind?_mapInsert (m : SlotMap) (pt q : Point) (s : Slot) :
    mapFind? (mapInsert m pt s) q = if q = pt then some s else mapFind? m q := by
  by_cases h : q = pt
  · subst h; simp [mapFind?, mapInsert, List.find?_cons]
  · have hpq : ¬ pt = q := fun hh => h hh.symm
    simp only [mapFind?, mapInsert, List.find?_cons, h, if_false, hpq]
    rw [show (decide False) = false from rfl]
    rw [find?_filter_ne m pt q h]

/-- Reading through `set_slot`. -/
theorem get_set_slot (g : Grid) (pt : Point) (s : Slot) (q : Point) :
    (g.set_slot pt s).get q = if q = pt then s else g.get q := by
  by_cases h : q = pt <;>
    simp [Grid.set_slot, Grid.get, mapFind?_mapInsert, h]

theorem width_set_slot (g : Grid) (pt : Point) (s : Slot) :
    (g.set_slot pt s).width = g.width := rfl

theorem height_set_slot (g : Grid) (pt : Point) (s : Slot) :
    (g.set_slot pt s).height = g.height := rfl

theorem keysNodup_set_slot (g : Grid) (pt : Point) (s : Slot)
    (h : keysNodup g) : keysNodup (g.set_slot pt s) := by
  unfold keysNodup at h ⊢
  simp only [Grid.set_slot, mapInsert, List.map_cons, List.nodup_cons]
  constructor
  · intro hmem
    rcases List.mem_map.mp hmem with ⟨e, he, hfst⟩
    have := List.of_mem_filter he
    simp only [decide_eq_true_eq] at this
    exact this hfst
  · exact ((List.filter_sublist _).map Prod.fst).nodup h

theorem countP_decomp (m : SlotMap) (pt : Point) (p : Point × Slot → Bool)
    (hnd : (m.map Prod.fst).Nodup) :
    m.countP p = (m.filter (fun e => ¬ (e.1 = pt))).countP p +
      (match mapFind? m pt with
       | some v => if p (pt, v) then 1 else 0
       | none => 0) := by
  induction m with
  | nil => simp [mapFind?]
  | cons a m ih =>
    obtain ⟨a1, a2⟩ := a
    simp only [List.map_cons, List.nodup_cons] at hnd
    obtain ⟨hmem, hnd'⟩ := hnd
    by_cases ha : a1 = pt
    · subst ha
      have hfind : mapFind? ((a1, a2) :: m) a1 = some a2 := by
        simp [mapFind?, List.find?_cons]
      have hfa : ((a1, a2) :: m).filter (fun e => ¬ (e.1 = a1)) = m := by
        rw [List.filter_cons, if_neg (by simp)]
        apply List.filter_eq_self.mpr
        intro e he
        simp only [decide_eq_true_eq]
        intro hept
        exact hmem (List.mem_map.mpr ⟨e, he, hept⟩)
      rw [hfind, hfa, List.countP_cons]
    · have hfind : mapFind? ((a1, a2) :: m) pt = mapFind? m pt := by
        simp [mapFind?, List.find?_cons, ha]
      have hfa : ((a1, a2) :: m).filter (fun e => ¬ (e.1 = pt)) =
          (a1, a2) :: m.filter (fun e => ¬ (e.1 = pt)) := by
        rw [List.filter_cons]
        simp [ha]
      rw [hfind, hfa, List.countP_cons, List.countP_cons, ih hnd']
      omega

/-- The `countP` decomposition rephrased through `Grid.get`; the default
`Empty(Legal)` never satisfies an occupied-or-chain predicate `p` with
`p (pt, Empty l) = false`. -/
theorem countP_decomp_get (g : Grid) (pt : Point) (p : Point × Slot → Bool)
    (hnd : keysNodup g) (hp : ∀ l, p (pt, Slot.Empty l) = false) :
    g.data.countP p = (g.data.filter (fun e => ¬ (e.1 = pt))).countP p +
      (if p (pt, g.get pt) then 1 else 0) := by
  rw [countP_decomp g.data pt p hnd]
  cases hfind : mapFind? g.data pt with
  | none => simp [Grid.get, hfind, hp]
  | some v => simp [Grid.get, hfind]


theorem chain_sizes_set_slot (g : Grid) (pt : Point) (s : Slot) (c : Chain) :
    (g.set_slot pt s).chain_sizes c =
      g.chain_sizes c - (if g.get pt = Slot.Chain c then 1 else 0)
        + (if s = Slot.Chain c then 1 else 0) := by
  rcases hget : g.get pt with l | _ | _ | c0 <;> rcases s with l1 | _ | _ | c1 <;>
    simp only [Grid.set_slot, hget, Function.update_apply] <;>
    split_ifs <;> simp_all

theorem GridWf_set_slot (g : Grid) (pt : Point) (s : Slot) (h : GridWf g) :
    GridWf (g.set_slot pt s) := by
  obtain ⟨hnd, hcons⟩ := h
  refine ⟨keysNodup_set_slot g pt s hnd, ?_⟩
  intro c
  have hdec := countP_decomp_get g pt (fun e => e.2 = Slot.Chain c) hnd
    (fun l => by simp)
  have hnew : chainCount (g.set_slot pt s) c =
      (if s = Slot.Chain c then 1 else 0) +
      (g.data.filter (fun e => ¬ (e.1 = pt))).countP (fun e => e.2 = Slot.Chain c) := by
    simp only [chainCount, Grid.set_slot, mapInsert, List.countP_cons,
      decide_eq_true_eq]
    omega
  have hold : g.chain_sizes c =
      (g.data.filter (fun e => ¬ (e.1 = pt))).countP (fun e => e.2 = Slot.Chain c) +
      (if g.get pt = Slot.Chain c then 1 else 0) := by
    rw [hcons c]
    simp only [chainCount]
    rw [hdec]
    simp only [decide_eq_true_eq]
  rw [chain_sizes_set_slot, hnew, hold]
  omega

theorem occupiedCount_set_slot (g : Grid) (pt : Point) (s : Slot)
    (hnd : keysNodup g) :
    occupiedCount (g.set_slot pt s) + occFlag (g.get pt) =
      occupiedCount g + occFlag s := by
  have hdec := countP_decomp_get g pt (fun e => isOccupied e.2) hnd
    (fun l => rfl)
  have hnew : occupiedCount (g.set_slot pt s) =
      (if isOccupied s then 1 else 0) +
      (g.data.filter (fun e => ¬ (e.1 = pt))).countP (fun e => isOccupied e.2) := by
    simp only [occupiedCount, Grid.set_slot, mapInsert, List.countP_cons]
    omega
  have hgoal : occupiedCount g =
      (g.data.filter (fun e => ¬ (e.1 = pt))).countP (fun e => isOccupied e.2) +
      (if isOccupied (g.get pt) then 1 else 0) := hdec
  rw [hnew, hgoal]
  simp only [occFlag]
  omega

/-- Grid-accumulator `foldl` preserves any invariant preserved stepwise. -/
theorem foldl_grid_preserve {α : Type} (P : Grid → Prop) (f : Grid → α → Grid)
    (hf : ∀ g a, P g → P (f g a)) :
    ∀ (l : List α) (g : Grid), P g → P (l.foldl f g) := by
  intro l
  induction l with
  | nil => intro g hP; exact hP
  | cons a l ih => intro g hP; exact ih (f g a) (hf g a hP)

/-- `update_legality_of_slot` only ever rewrites an `Empty` slot that is not
permanently illegal into another `Empty` slot; any property preserved by such
writes is preserved. -/
theorem update_legality_of_slot_preserve (P : Grid → Prop)
    (hset : ∀ (g : Grid) (pt : Point) (l l' : Legality),
      g.get pt = Slot.Empty l → l ≠ Legality.PermanentIllegal →
      P g → P (g.set_slot pt (Slot.Empty l'))) :
    ∀ (g : Grid) (pt : Point), P g → P (g.update_legality_of_slot pt) := by
  intro g pt hP
  unfold Grid.update_legality_of_slot
  rcases hget : g.get pt with l | _ | _ | c
  · rcases l with _ | _ | _
    · simp only
      split_ifs with h1 h2
      · exact hset g pt Legality.Legal _ hget (by simp) hP
      · exact hset g pt Legality.Legal _ hget (by simp) hP
      · exact hP
    · simp only
      split_ifs with h1 h2
      · exact hset g pt Legality.TemporarilyIllegal _ hget (by simp) hP
      · exact hset g pt Legality.TemporarilyIllegal _ hget (by simp) hP
      · exact hP
    · exact hP
  · exact hP
  · exact hP
  · exact hP

theorem update_legality_of_neighbours_preserve (P : Grid → Prop)
    (hset : ∀ (g : Grid) (pt : Point) (l l' : Legality),
      g.get pt = Slot.Empty l → l ≠ Legality.PermanentIllegal →
      P g → P (g.set_slot pt (Slot.Empty l'))) :
    ∀ (g : Grid) (pt : Point), P g → P (g.update_legality_of_neighbours pt) := by
  intro g pt hP
  exact foldl_grid_preserve P _
    (fun h q hPh => update_legality_of_slot_preserve P hset h q hPh)
    (g.neighbouring_points pt) g hP

theorem update_legality_of_all_nochains_preserve (P : Grid → Prop)
    (hset : ∀ (g : Grid) (pt : Point) (l l' : Legality),
      g.get pt = Slot.Empty l → l ≠ Legality.PermanentIllegal →
      P g → P (g.set_slot pt (Slot.Empty l'))) :
    ∀ (g : Grid), P g → P g.update_legality_of_all_nochains := by
  intro g hP
  exact foldl_grid_preserve P _
    (fun h q hPh => update_legality_of_neighbours_preserve P hset h q hPh)
    _ g hP

/-- `update_chain_of_neighbours` only rewrites occupied (`Limbo`/`NoChain`)
slots into `Chain` slots. -/
theorem update_chain_of_neighbours_preserve (P : Grid → Prop) (chain : Chain)
    (hset : ∀ (g : Grid) (pt : Point), isOccupied (g.get pt) = true →
      P g → P (g.set_slot pt (Slot.Chain chain))) :
    ∀ (g : Grid) (pt : Point), P g → P (g.update_chain_of_neighbours pt chain) := by
  intro g pt hP
  refine foldl_grid_preserve P _ ?_ (g.neighbouring_points pt) g hP
  intro h q hPh
  rcases hget : h.get q with l | _ | _ | c <;>
    simp only [hget] <;>
    first
    | exact hPh
    | exact hset h q (by rw [hget]; rfl) hPh

/-- Every slot write performed by the BFS loop of `fill_chain` turns an
occupied slot into `Chain chain`; any property preserved by such writes is
preserved across the whole loop regardless of fuel. -/
theorem fillLoop_preserve (P : Grid → Prop) (chain : Chain)
    (hset : ∀ (g : Grid) (pt : Point), isOccupied (g.get pt) = true →
      P g → P (g.set_slot pt (Slot.Chain chain))) :
    ∀ (fuel : Nat) (g : Grid) (stack visited empties : List Point),
      P g → P (fillLoop chain fuel g stack visited empties).1 := by
  intro fuel
  induction fuel with
  | zero => intro g stack visited empties hP; exact hP
  | succ fuel ih =>
    intro g stack visited empties hP
    rcases stack with _ | ⟨pt, rest⟩
    · exact hP
    · rcases hget : g.get pt with l | _ | _ | c
      · rcases l with _ | _ | _ <;> simp only [fillLoop, hget] <;>
          exact ih _ _ _ _ hP
      · simp only [fillLoop, hget]
        exact ih _ _ _ _ (hset g pt (by rw [hget]; rfl) hP)
      · simp only [fillLoop, hget]
        exact ih _ _ _ _ (hset g pt (by rw [hget]; rfl) hP)
      · simp only [fillLoop, hget]
        split_ifs with hc
        · exact ih _ _ _ _ hP
        · exact ih _ _ _ _ (hset g pt (by rw [hget]; rfl) hP)

/-- `fill_chain` as a whole preserves any property preserved by its two
kinds of slot writes. -/
theorem fill_chain_preserve (P : Grid → Prop) (chain : Chain)
    (hsetChain : ∀ (g : Grid) (pt : Point), isOccupied (g.get pt) = true →
      P g → P (g.set_slot pt (Slot.Chain chain)))
    (hsetLeg : ∀ (g : Grid) (pt : Point) (l l' : Legality),
      g.get pt = Slot.Empty l → l ≠ Legality.PermanentIllegal →
      P g → P (g.set_slot pt (Slot.Empty l'))) :
    ∀ (g : Grid) (pt : Point), P g → P (g.fill_chain pt chain) := by
  intro g pt hP
  unfold Grid.fill_chain
  dsimp only
  have h1 : P (fillLoop chain fillChainFuel g [pt] [] []).1 :=
    fillLoop_preserve P chain hsetChain fillChainFuel g [pt] [] [] hP
  set r := fillLoop chain fillChainFuel g [pt] [] []
  have h2 : P (if r.1.permanently_illegal_possible then
      r.2.foldl (fun h q => h.update_legality_of_slot q) r.1 else r.1) := by
    split_ifs
    · exact foldl_grid_preserve P _
        (fun h q hPh => update_legality_of_slot_preserve P hsetLeg h q hPh)
        r.2 r.1 h1
    · exact h1
  split_ifs at h2 ⊢ <;>
    first
    | exact update_legality_of_all_nochains_preserve P hsetLeg _ h2
    | exact h2

theorem placeMerger_preserve (P : Grid → Prop) (g : Grid) (t : Tile)
    (ncs : List Chain)
    (hset : ∀ (s : Slot), P (g.set_slot t.pt s))
    (hprev : ∀ (h : Grid) (p : Option Point),
      P h → P { h with previously_placed_tile_pt := p }) :
    ∀ r g', g.placeMerger t ncs = some (r, g') → P g' := by
  intro r g' hpl
  unfold Grid.placeMerger at hpl
  split at hpl
  · simp at hpl
  · split_ifs at hpl <;>
    · simp only [Option.some.injEq, Prod.mk.injEq] at hpl
      obtain ⟨h1, h2⟩ := hpl
      subst h2
      exact hprev _ _ (hset _)

theorem placeNoChain_preserve (P : Grid → Prop) (g : Grid) (t : Tile)
    (hset : ∀ (s : Slot), P (g.set_slot t.pt s))
    (hsetLeg : ∀ (h : Grid) (pt : Point) (l l' : Legality),
      h.get pt = Slot.Empty l → l ≠ Legality.PermanentIllegal →
      P h → P (h.set_slot pt (Slot.Empty l')))
    (hprev : ∀ (h : Grid) (p : Option Point),
      P h → P { h with previously_placed_tile_pt := p }) :
    ∀ r g', g.placeNoChain t = some (r, g') → P g' := by
  intro r g' hpl
  unfold Grid.placeNoChain at hpl
  split_ifs at hpl <;>
  · simp only [Option.some.injEq, Prod.mk.injEq] at hpl
    obtain ⟨h1, h2⟩ := hpl
    subst h2
    exact update_legality_of_neighbours_preserve P hsetLeg _ _
      (hprev _ _ (hset _))

theorem placeExtend_preserve (P : Grid → Prop) (g : Grid) (t : Tile)
    (chain : Chain)
    (hset : ∀ (s : Slot), P (g.set_slot t.pt s))
    (hsetChain : ∀ (h : Grid) (pt : Point) (c : Chain),
      isOccupied (h.get pt) = true → P h → P (h.set_slot pt (Slot.Chain c)))
    (hsetLeg : ∀ (h : Grid) (pt : Point) (l l' : Legality),
      h.get pt = Slot.Empty l → l ≠ Legality.PermanentIllegal →
      P h → P (h.set_slot pt (Slot.Empty l')))
    (hprev : ∀ (h : Grid) (p : Option Point),
      P h → P { h with previously_placed_tile_pt := p }) :
    ∀ r g', g.placeExtend t chain = some (r, g') → P g' := by
  intro r g' hpl
  unfold Grid.placeExtend at hpl
  simp only [Option.some.injEq, Prod.mk.injEq] at hpl
  obtain ⟨h1, h2⟩ := hpl
  subst h2
  exact hprev _ _
    (update_chain_of_neighbours_preserve P chain
      (fun h pt hocc hPh => hsetChain h pt chain hocc hPh) _ _
      (update_legality_of_neighbours_preserve P hsetLeg _ _ (hset _)))

/-- The writes performed by `place`: one write at the placed tile itself
(only reached when that slot is not an illegal empty), legality rewrites of
empty neighbours, chain absorption of occupied neighbours, and the
last-placed-tile record. -/
theorem place_preserve (P : Grid → Prop) (g : Grid) (t : Tile) (hP : P g)
    (hsetTile : ∀ (s : Slot),
      (∀ l, g.get t.pt = Slot.Empty l → l = Legality.Legal) →
      P (g.set_slot t.pt s))
    (hsetChain : ∀ (h : Grid) (pt : Point) (chain : Chain),
      isOccupied (h.get pt) = true → P h → P (h.set_slot pt (Slot.Chain chain)))
    (hsetLeg : ∀ (h : Grid) (pt : Point) (l l' : Legality),
      h.get pt = Slot.Empty l → l ≠ Legality.PermanentIllegal →
      P h → P (h.set_slot pt (Slot.Empty l')))
    (hprev : ∀ (h : Grid) (p : Option Point),
      P h → P { h with previously_placed_tile_pt := p }) :
    ∀ r g', g.place t = some (r, g') → P g' := by
  intro r g' hpl
  have hbranch : ∀ (hcond : ∀ l, g.get t.pt = Slot.Empty l → l = Legality.Legal),
      (match chains_in_slots (g.neighbours t.pt) with
        | c1 :: c2 :: cs => g.placeMerger t (c1 :: c2 :: cs)
        | [] => g.placeNoChain t
        | [chain] => g.placeExtend t chain) = some (r, g') → P g' := by
    intro hcond hm
    rcases hchains : chains_in_slots (g.neighbours t.pt) with
        _ | ⟨c1, _ | ⟨c2, cs⟩⟩ <;> rw [hchains] at hm
    · exact placeNoChain_preserve P g t (fun s => hsetTile s hcond)
        hsetLeg hprev r g' hm
    · exact placeExtend_preserve P g t c1 (fun s => hsetTile s hcond)
        hsetChain hsetLeg hprev r g' hm
    · exact placeMerger_preserve P g t (c1 :: c2 :: cs)
        (fun s => hsetTile s hcond) hprev r g' hm
  unfold Grid.place at hpl
  by_cases hoob : g.is_pt_out_of_bounds t.pt = true
  · rw [if_pos hoob] at hpl
    exact absurd hpl (by simp)
  · rw [if_neg hoob] at hpl
    rcases hget : g.get t.pt with l | _ | _ | c
    · rcases l with _ | _ | _ <;> rw [hget] at hpl <;> simp only at hpl
      · refine hbranch ?_ hpl
        intro l hl
        rw [hget] at hl
        cases hl
        rfl
      · simp only [Option.some.injEq, Prod.mk.injEq] at hpl
        obtain ⟨h1, h2⟩ := hpl
        subst h2
        exact hP
      · simp only [Option.some.injEq, Prod.mk.injEq] at hpl
        obtain ⟨h1, h2⟩ := hpl
        subst h2
        exact hP
    all_goals {
      rw [hget] at hpl
      simp only at hpl
      refine hbranch ?_ hpl
      intro l hl
      rw [hget] at hl
      cases hl
    }

/-- C5: chain-size consistency.  The freshly created grid is consistent, and
both `place` (whenever it does not panic) and `fill_chain` preserve the
well-formedness invariant `GridWf`: the recorded size of every chain equals
the number of slot-map entries holding that chain.  The table is maintained
only through the incremental bookkeeping of `set_slot`; no operation
recomputes it. -/
theorem C5_chain_size_consistency (w hgt : Nat) (g : Grid) (h : GridWf g)
    (t : Tile) (pt : Point) (c : Chain) :
    GridWf (Grid.new w hgt) ∧
    (∀ r g', g.place t = some (r, g') → GridWf g') ∧
    GridWf (g.fill_chain pt c) := by
  refine ⟨⟨by simp [keysNodup, Grid.new], fun c2 => by simp [Grid.new, chainCount]⟩, ?_, ?_⟩
  · exact place_preserve GridWf g t h
      (fun s _ => GridWf_set_slot g t.pt s h)
      (fun h2 pt2 c2 _ hw => GridWf_set_slot _ _ _ hw)
      (fun h2 pt2 l l' _ _ hw => GridWf_set_slot _ _ _ hw)
      (fun h2 p hw => hw)
  · exact fill_chain_preserve GridWf c
      (fun h2 pt2 _ hw => GridWf_set_slot _ _ _ hw)
      (fun h2 pt2 l l' _ _ hw => GridWf_set_slot _ _ _ hw) g pt h

instance (g : Grid) : Decidable (GridWf g) :=
  inferInstanceAs
    (Decidable ((g.data.map Prod.fst).Nodup ∧
      ∀ c, g.chain_sizes c = chainCount g c))

/-- Witness for C5 on the concrete grid `c1Grid`. -/
theorem C5_witness :
    GridWf (c1Grid.fill_chain ⟨2,2⟩ Chain.Tower) :=
  (C5_chain_size_consistency 12 9 c1Grid (by decide) ⟨⟨0,0⟩⟩ ⟨2,2⟩
    Chain.Tower).2.2

theorem get_prev_update (g : Grid) (p : Option Point) (q : Point) :
    ({ g with previously_placed_tile_pt := p }).get q = g.get q := rfl

/-- One grid operation cannot move a slot away from permanent illegality. -/
theorem permIllegal_applyGridOp (g : Grid) (pt0 : Point)
    (h : g.get pt0 = Slot.Empty Legality.PermanentIllegal) (op : GridOp) :
    (applyGridOp g op).get pt0 = Slot.Empty Legality.PermanentIllegal := by
  have hsetChain : ∀ (h2 : Grid) (pt2 : Point) (chain : Chain),
      isOccupied (h2.get pt2) = true →
      h2.get pt0 = Slot.Empty Legality.PermanentIllegal →
      (h2.set_slot pt2 (Slot.Chain chain)).get pt0 =
        Slot.Empty Legality.PermanentIllegal := by
    intro h2 pt2 chain hocc hp
    by_cases hpt : pt0 = pt2
    · rw [← hpt, hp] at hocc
      exact absurd hocc (by simp [isOccupied])
    · rw [get_set_slot, if_neg hpt]
      exact hp
  have hsetLeg : ∀ (h2 : Grid) (pt2 : Point) (l l' : Legality),
      h2.get pt2 = Slot.Empty l → l ≠ Legality.PermanentIllegal →
      h2.get pt0 = Slot.Empty Legality.PermanentIllegal →
      (h2.set_slot pt2 (Slot.Empty l')).get pt0 =
        Slot.Empty Legality.PermanentIllegal := by
    intro h2 pt2 l l' hl hlne hp
    by_cases hpt : pt0 = pt2
    · rw [← hpt, hp] at hl
      cases hl
      exact absurd rfl hlne
    · rw [get_set_slot, if_neg hpt]
      exact hp
  rcases op with t | ⟨fpt, fc⟩
  · show (placeD g t).get pt0 = _
    unfold placeD
    rcases hpl : g.place t with _ | ⟨r, g'⟩
    · exact h
    · refine place_preserve
        (fun h2 => h2.get pt0 = Slot.Empty Legality.PermanentIllegal)
        g t h ?_ hsetChain hsetLeg (fun h2 p hp => hp) r g' hpl
      intro s hcond
      by_cases hpt : pt0 = t.pt
      · rw [← hpt] at hcond
        have := hcond Legality.PermanentIllegal h
        cases this
      · rw [get_set_slot, if_neg hpt]
        exact h
  · exact fill_chain_preserve
      (fun h2 => h2.get pt0 = Slot.Empty Legality.PermanentIllegal)
      fc (fun h2 pt2 hocc hp => hsetChain h2 pt2 fc hocc hp) hsetLeg g fpt h

/-- C6: legality monotonicity.  Once a slot reads
`Empty(PermanentIllegal)`, it still reads `Empty(PermanentIllegal)` after
any sequence of `place` / `fill_chain` operations - in particular it never
becomes `Empty(Legal)` or `Empty(TemporarilyIllegal)`. -/
theorem C6_legality_monotonicity (g : Grid) (pt0 : Point)
    (h : g.get pt0 = Slot.Empty Legality.PermanentIllegal) (ops : List GridOp) :
    (applyGridOps g ops).get pt0 = Slot.Empty Legality.PermanentIllegal := by
  induction ops generalizing g with
  | nil => exact h
  | cons op ops ih => exact ih (applyGridOp g op) (permIllegal_applyGridOp g pt0 h op)

/-- Concrete grid for the C6 witness: one permanently illegal empty slot. -/
def c6Grid : Grid :=
  { width := 12, height := 9,
    data := [(⟨5,5⟩, Slot.Empty Legality.PermanentIllegal)],
    chain_sizes := fun _ => 0, previously_placed_tile_pt := none }

/-- Witness for C6: the permanently illegal slot survives a placement, a
chain fill next to it, and a placement adjacent to it. -/
theorem C6_witness :
    (applyGridOps c6Grid
      [GridOp.place ⟨⟨0,0⟩⟩, GridOp.fill ⟨0,0⟩ Chain.Tower,
       GridOp.place ⟨⟨5,4⟩⟩]).get ⟨5,5⟩ =
      Slot.Empty Legality.PermanentIllegal :=
  C6_legality_monotonicity c6Grid ⟨5,5⟩ (by decide)
    [GridOp.place ⟨⟨0,0⟩⟩, GridOp.fill ⟨0,0⟩ Chain.Tower,
     GridOp.place ⟨⟨5,4⟩⟩]

/-- `PlayerId(u8)` modelled as a bare natural. -/
abbrev PlayerId := Nat

/-- `Player` from `player.rs`; the stock ledger (`Stocks`) is a per-chain
count. -/
structure Player where
  id : PlayerId
  tiles : List Tile
  stocks : Chain → Nat
  money : Nat

/-- `Stocks::has_any`. -/
def stocksHasAny (st : Chain → Nat) (c : Chain) : Bool := 1 ≤ st c

/-- `Stocks::deposit` (the `amount == 0` early return is kept). -/
def stocksDeposit (st : Chain → Nat) (c : Chain) (amount : Nat) : Chain → Nat :=
  if amount = 0 then st else Function.update st c (st c + amount)

/-- `Stocks::withdraw`: `none` is `Err(InsufficientStock)`; the balance can
never go below zero. -/
def stocksWithdraw (st : Chain → Nat) (c : Chain) (amount : Nat) :
    Option (Chain → Nat) :=
  if st c < amount then none
  else some (Function.update st c (st c - amount))

/-- `CHAIN_TIER_MAP` from `money.rs`. -/
def chain_tier : Chain → Nat
  | Chain.Tower => 0
  | Chain.Luxor => 0
  | Chain.American => 1
  | Chain.Worldwide => 1
  | Chain.Festival => 1
  | Chain.Continental => 2
  | Chain.Imperial => 2

/-- `chain_size_value` from `money.rs`. -/
def chain_size_value (chain_size : Nat) : Nat :=
  if chain_size ≤ 1 then 0
  else if chain_size ≤ 5 then chain_size * 100
  else if chain_size ≤ 10 then 600
  else if chain_size ≤ 20 then 700
  else if chain_size ≤ 30 then 800
  else if chain_size ≤ 40 then 900
  else 1000

/-- `chain_value` from `money.rs`. -/
def chain_value (chain : Chain) (size : Nat) : Nat :=
  chain_size_value size + chain_tier chain * 100

/-- `round_up_to_nearest_hundred` from `money.rs`. -/
def round_up_to_nearest_hundred (num : Nat) : Nat :=
  ((num + 99) / 100) * 100

/-- `MergeDecision` from `lib.rs`. -/
structure MergeDecision where
  merging_chains : MergingChains
  sell : Nat
  trade_in : Nat
deriving DecidableEq, Repr

/-- `MergePhase` from `lib.rs`. -/
inductive MergePhase where
  | AwaitingTiebreakSelection (tied_chains : List Chain)
  | AwaitingMergeDecision
deriving DecidableEq, Repr

/-- `Phase` from `lib.rs`. -/
inductive Phase where
  | AwaitingTilePlacement
  | AwaitingChainCreationSelection
  | AwaitingStockPurchase
  | AwaitingGameTerminationDecision
  | Merge (merging_player_id : PlayerId) (phase : MergePhase)
      (mergers_remaining : List MergingChains)
deriving DecidableEq, Repr

/-- `BuyOption` from `lib.rs`. -/
inductive BuyOption where
  | None
  | Chain (chain : Chain)
deriving DecidableEq, Repr

/-- `Action` from `lib.rs` (the three-buy array is a 3-element list; the
name `Action` itself is taken by Mathlib). -/
inductive GameAction where
  | PlaceTile (player_id : PlayerId) (tile : Tile)
  | PurchaseStock (player_id : PlayerId) (buys : List BuyOption)
  | SelectChainToCreate (player_id : PlayerId) (chain : Chain)
  | SelectChainForTiebreak (player_id : PlayerId) (chain : Chain)
  | DecideMerge (merging_player_id : PlayerId) (decision : MergeDecision)
  | Terminate (player_id : PlayerId) (terminate : Bool)
deriving DecidableEq, Repr

/-- `Acquire` (root aggregate) from `lib.rs`. -/
structure Acquire where
  phase : Phase
  players : List Player
  tiles : List Tile
  stocks : Chain → Nat
  grid : Grid
  current_player_id : PlayerId
  turn : Nat
  step : Nat
  terminated : Bool

/-- `Options` from `lib.rs`. -/
structure Options where
  num_players : Nat
  num_tiles : Nat
  grid_width : Nat
  grid_height : Nat
  num_stock : Nat
  starting_money : Nat

/-- `Options::default`. -/
def defaultOptions : Options :=
  { num_players := 4, num_tiles := 6, grid_width := 12, grid_height := 9,
    num_stock := 25, starting_money := 6000 }

/-- The full tile set generated by `Acquire::new`, in its row-major push
order. -/
def allTiles (o : Options) : List Tile :=
  (List.range o.grid_height).flatMap (fun y =>
    (List.range o.grid_width).map (fun x => Tile.mk ⟨(x : Int), (y : Int)⟩))

/-- `Acquire::new`: the rng-shuffled draw pile is passed explicitly (the
only randomness of the engine); hands are dealt from its front, the rest is
the draw bag. -/
def Acquire.new (shuffled : List Tile) (o : Options) : Acquire :=
  { phase := Phase.AwaitingTilePlacement,
    players := (List.range o.num_players).map (fun i =>
      { id := i,
        tiles := (shuffled.drop (i * o.num_tiles)).take o.num_tiles,
        stocks := fun _ => 0,
        money := o.starting_money }),
    tiles := shuffled.drop (o.num_players * o.num_tiles),
    stocks := fun _ => o.num_stock,
    grid := Grid.new o.grid_width o.grid_height,
    current_player_id := 0, turn := 1, step := 0, terminated := false }

/-- `get_player_by_id` (indexing by the id, panics out of range). -/
def Acquire.getPlayer? (a : Acquire) (pid : PlayerId) : Option Player :=
  a.players.get? pid

/-- `get_player_by_id_mut` as a functional update; `none` is the
out-of-range index panic. -/
def Acquire.updatePlayer (a : Acquire) (pid : PlayerId) (f : Player → Player) :
    Option Acquire :=
  match a.players.get? pid with
  | none => none
  | some p => some { a with players := a.players.set pid (f p) }

/-- The stock holders of a chain (`players_with_stock` in `chain_bonus`). -/
def Acquire.players_with_stock (a : Acquire) (chain : Chain) : List Player :=
  a.players.filter (fun p => stocksHasAny p.stocks chain)

/-- `most_stock_held` in `chain_bonus` (`.max().unwrap()`, only read when
the holder list is nonempty). -/
def Acquire.most_stock_held (a : Acquire) (chain : Chain) : Nat :=
  ((a.players_with_stock chain).map (fun p => p.stocks chain)).foldr Nat.max 0

/-- `second_most_stock_held` in `chain_bonus` (`.max().unwrap_or(0)`). -/
def Acquire.second_most_stock_held (a : Acquire) (chain : Chain) : Nat :=
  (((a.players_with_stock chain).filter
      (fun p => ¬ (p.stocks chain = a.most_stock_held chain))).map
    (fun p => p.stocks chain)).foldr Nat.max 0

/-- `players_with_most_stock` in `chain_bonus`. -/
def Acquire.players_with_most_stock (a : Acquire) (chain : Chain) : List Player :=
  (a.players_with_stock chain).filter
    (fun p => p.stocks chain = a.most_stock_held chain)

/-- `players_with_second_most_stock` in `chain_bonus` (empty when the
second-most count is zero). -/
def Acquire.players_with_second_most_stock (a : Acquire) (chain : Chain) :
    List Player :=
  (a.players_with_stock chain).filter (fun p =>
    ¬ (a.second_most_stock_held chain = 0) ∧
    p.stocks chain = a.second_most_stock_held chain)

/-- `Acquire::chain_bonus` from `money.rs`, returning the id-to-bonus map as
an association list (majority entries first, then minority entries).  The
source's final `panic!("weird bonus situation")` arm is unreachable because
`players_with_most_stock` is nonempty whenever `players_with_stock` is; it
is rendered as the empty map. -/
def Acquire.chain_bonus (a : Acquire) (chain : Chain) : List (PlayerId × Nat) :=
  if (a.players_with_stock chain).isEmpty then []
  else if a.most_stock_held chain = 0 then []
  else if 1 < (a.players_with_most_stock chain).length ∨
      ((a.players_with_most_stock chain).length = 1 ∧
        (a.players_with_second_most_stock chain).isEmpty) then
    (a.players_with_most_stock chain).map (fun p =>
      (p.id, round_up_to_nearest_hundred
        (chain_value chain (a.grid.chain_size chain) * 10 /
          (a.players_with_most_stock chain).length)))
  else if (a.players_with_most_stock chain).length = 1 ∧
      ¬ (a.players_with_second_most_stock chain).isEmpty then
    ((a.players_with_most_stock chain).map (fun p =>
      (p.id, chain_value chain (a.grid.chain_size chain) * 10))) ++
    (a.players_with_second_most_stock chain).map (fun p =>
      (p.id, round_up_to_nearest_hundred
        (chain_value chain (a.grid.chain_size chain) * 5 /
          (a.players_with_second_most_stock chain).length)))
  else []

/-- `Acquire::provide_bonuses`. -/
def Acquire.provide_bonuses (a : Acquire) (chain : Chain) : Option Acquire :=
  (a.chain_bonus chain).foldlM
    (fun acc pb => acc.updatePlayer pb.1
      (fun p => { p with money := p.money + pb.2 })) a

/-- `Acquire::provide_final_bonuses`. -/
def Acquire.provide_final_bonuses (a : Acquire) : Option Acquire :=
  CHAIN_ARRAY.foldlM (fun acc c => acc.provide_bonuses c) a

/-- `Acquire::player_take_tile`: pop the back of the draw pile into the
player's hand (no-op on an empty pile). -/
def Acquire.player_take_tile (a : Acquire) (pid : PlayerId) : Option Acquire :=
  if a.tiles.isEmpty then some a
  else
    match a.tiles.getLast? with
    | none => some a
    | some tile =>
      ({ a with tiles := a.tiles.dropLast } : Acquire).updatePlayer pid
        (fun p => { p with tiles := p.tiles ++ [tile] })

/-- The hand filter of `player_trade_in_illegal_tiles`: keep
legal/temporarily-illegal tiles, drop permanently illegal ones; a hand tile
whose board slot is occupied is the `panic!` of the non-test build
(`none`). -/
def tradeFilterLoop (g : Grid) : List Tile → Option (List Tile)
  | [] => some []
  | t :: rest =>
    match g.get t.pt with
    | Slot.Empty Legality.PermanentIllegal => tradeFilterLoop g rest
    | Slot.Empty _ => (tradeFilterLoop g rest).map (fun k => t :: k)
    | _ => none

/-- `Acquire::player_trade_in_illegal_tiles`: drop the player's permanently
illegal tiles and refill the hand up to 6 (the hardcoded constant of the
source) from the back of the draw pile. -/
def Acquire.player_trade_in_illegal_tiles (a : Acquire) (pid : PlayerId) :
    Option Acquire :=
  match a.players.get? pid with
  | none => none
  | some p =>
    match tradeFilterLoop a.grid p.tiles with
    | none => none
    | some kept =>
      let required_tiles := 6 - kept.length
      let tiles_to_draw := min required_tiles a.tiles.length
      let drawn := (a.tiles.drop (a.tiles.length - tiles_to_draw)).reverse
      some { a with
        tiles := a.tiles.take (a.tiles.length - tiles_to_draw),
        players := a.players.set pid { p with tiles := kept ++ drawn } }

/-- `Acquire::go_next_turn`. -/
def Acquire.go_next_turn (a : Acquire) : Acquire :=
  { a with current_player_id := (a.current_player_id + 1) % a.players.length,
           turn := a.turn + 1 }

/-- `Acquire::may_terminate`. -/
def Acquire.may_terminate (a : Acquire) : Bool :=
  a.grid.all_chains_are_safe || a.grid.game_ending_chain_exists

/-- The tile check of `player_has_any_valid_tiles`, with the source's
short-circuit `any`: a placed hand tile panics (`none`) only if no earlier
hand tile was already legal. -/
def hasValidLoop (g : Grid) : List Tile → Option Bool
  | [] => some false
  | t :: rest =>
    match g.get t.pt with
    | Slot.Empty Legality.Legal => some true
    | Slot.Empty _ => hasValidLoop g rest
    | _ => none

/-- `Acquire::player_has_any_valid_tiles`. -/
def Acquire.player_has_any_valid_tiles (a : Acquire) (pid : PlayerId) :
    Option Bool :=
  match a.players.get? pid with
  | none => none
  | some p => hasValidLoop a.grid p.tiles

/-- `Acquire::num_players_with_stock_in_chain`. -/
def Acquire.num_players_with_stock_in_chain (a : Acquire) (chain : Chain) : Nat :=
  (a.players.filter (fun p => stocksHasAny p.stocks chain)).length

/-- `Acquire::player_ids_in_order`. -/
def Acquire.player_ids_in_order (a : Acquire) (starting : PlayerId) : List PlayerId :=
  (List.range a.players.length).map
    (fun n => (starting + n) % a.players.length)

/-- Whether the indexed player holds any stock of `chain`. -/
def Acquire.pidHasStock (a : Acquire) (pid : PlayerId) (chain : Chain) : Bool :=
  match a.players.get? pid with
  | some p => stocksHasAny p.stocks chain
  | none => false

/-- `Acquire::next_merging_player_id`.  The outer `Option` is the `panic!`
on an invalid phase; the inner one is the source's return value. -/
def Acquire.next_merging_player_id (a : Acquire) (chain : Chain) :
    Option (Option PlayerId) :=
  match a.phase with
  | Phase.AwaitingTilePlacement =>
    some ((a.player_ids_in_order a.current_player_id).find?
      (fun pid => a.pidHasStock pid chain))
  | Phase.Merge merging_player_id _ _ =>
    some ((a.player_ids_in_order merging_player_id).find?
      (fun pid => ¬ (pid = merging_player_id) ∧
        ¬ (pid = a.current_player_id) ∧ a.pidHasStock pid chain))
  | _ => none

/-- `Acquire::tile_placement_actions`.  This enumerates one action per hand
tile on a `Legal` empty slot; a hand tile already on the board is skipped
(the `cfg(test)` behaviour - the release build would panic, which never
happens in legal play). -/
def Acquire.tile_placement_actions (a : Acquire) : List GameAction :=
  match a.players.get? a.current_player_id with
  | none => []
  | some p =>
    p.tiles.filterMap (fun t =>
      match a.grid.get t.pt with
      | Slot.Empty Legality.Legal =>
        some (GameAction.PlaceTile a.current_player_id t)
      | _ => none)

/-- `Acquire::chain_selection_actions`. -/
def Acquire.chain_selection_actions (a : Acquire) : List GameAction :=
  a.grid.available_chains.map
    (fun chain => GameAction.SelectChainToCreate a.current_player_id chain)

/-- `Acquire::merge_combinations`. -/
def Acquire.merge_combinations (a : Acquire) (pid : PlayerId)
    (mc : MergingChains) : List MergeDecision :=
  match a.players.get? pid with
  | none => []
  | some p =>
    let num_defunct_stock := p.stocks mc.defunct_chain
    let num_merging_stock_remaining := a.stocks mc.merging_chain
    (List.range (num_defunct_stock + 1)).flatMap (fun sell_amount =>
      let half_of_remaining_stock := (num_defunct_stock - sell_amount) / 2
      let trade_ins_possible :=
        min half_of_remaining_stock num_merging_stock_remaining
      (List.range (trade_ins_possible + 1)).map (fun trade_in_num =>
        MergeDecision.mk mc sell_amount (trade_in_num * 2)))

/-- `Acquire::merge_actions` (an empty remaining-merger queue in the
decision sub-phase would panic in the source; it yields no actions here). -/
def Acquire.merge_actions (a : Acquire) (merging_player_id : PlayerId)
    (merge_phase : MergePhase) (mergers_remaining : List MergingChains) :
    List GameAction :=
  match merge_phase with
  | MergePhase.AwaitingTiebreakSelection tied_chains =>
    tied_chains.map (fun chain =>
      GameAction.SelectChainForTiebreak merging_player_id chain)
  | MergePhase.AwaitingMergeDecision =>
    match mergers_remaining with
    | [] => []
    | current_merger :: _ =>
      (a.merge_combinations merging_player_id current_merger).map
        (fun decision => GameAction.DecideMerge merging_player_id decision)

/-- The `can_buy` simulation inside `purchasable_combinations`: sequential
withdrawal against a copy of the bank stock and the player's money. -/
def canBuyLoop (chain_values : Chain → Nat) :
    List BuyOption → Nat → (Chain → Nat) → Bool
  | [], _, _ => true
  | BuyOption.None :: rest, money, stock => canBuyLoop chain_values rest money stock
  | BuyOption.Chain chain :: rest, money, stock =>
    if stock chain = 0 then false
    else if money < chain_values chain then false
    else canBuyLoop chain_values rest (money - chain_values chain)
      (Function.update stock chain (stock chain - 1))

/-- `Acquire::purchasable_combinations`: all multiset combinations of up to
three buys (indices `i ≤ j ≤ k` over the existing chains plus `None`),
filtered by the sequential affordability simulation. -/
def Acquire.purchasable_combinations (a : Acquire) (pid : PlayerId) :
    List (List BuyOption) :=
  match a.players.get? pid with
  | none => []
  | some p =>
    let buy_options :=
      (a.grid.existing_chains.map BuyOption.Chain) ++ [BuyOption.None]
    let chain_values := fun c => chain_value c (a.grid.chain_size c)
    let n := buy_options.length
    ((List.range n).flatMap (fun i =>
      ((List.range n).drop i).flatMap (fun j =>
        ((List.range n).drop j).map (fun k =>
          [buy_options.getD i BuyOption.None,
           buy_options.getD j BuyOption.None,
           buy_options.getD k BuyOption.None])))).filter
      (fun combo => canBuyLoop chain_values combo p.money a.stocks)

/-- `Acquire::stock_purchase_actions`. -/
def Acquire.stock_purchase_actions (a : Acquire) : List GameAction :=
  (a.purchasable_combinations a.current_player_id).map
    (fun buy => GameAction.PurchaseStock a.current_player_id buy)

/-- `Acquire::game_termination_actions` (panics in the source when
termination is not allowed; empty here - that state never enumerates). -/
def Acquire.game_termination_actions (a : Acquire) : List GameAction :=
  if a.may_terminate then
    [GameAction.Terminate a.current_player_id true,
     GameAction.Terminate a.current_player_id false]
  else []

/-- `Acquire::actions`. -/
def Acquire.actions (a : Acquire) : List GameAction :=
  match a.phase with
  | Phase.AwaitingTilePlacement => a.tile_placement_actions
  | Phase.AwaitingChainCreationSelection => a.chain_selection_actions
  | Phase.Merge mpid mp mergers => a.merge_actions mpid mp mergers
  | Phase.AwaitingStockPurchase => a.stock_purchase_actions
  | Phase.AwaitingGameTerminationDecision => a.game_termination_actions

/-- One iteration head of the turn-advance loop: reset the phase to tile
placement and move to the next seat. -/
def Acquire.advanceOne (a : Acquire) : Acquire :=
  ({ a with phase := Phase.AwaitingTilePlacement } : Acquire).go_next_turn

/-- The turn-advance loop of `move_to_next_player_who_can_play_a_tile`,
with the `count` accumulator of the source and explicit fuel (the caller
passes enough fuel for the `count == 2 * players` exit to fire first). -/
def moveLoop : Nat → Acquire → Nat → Option Acquire
  | 0, _, _ => none
  | Nat.succ fuel, a, count =>
    match a.advanceOne.player_has_any_valid_tiles a.advanceOne.current_player_id with
    | none => none
    | some true => some a.advanceOne
    | some false =>
      match a.advanceOne.player_trade_in_illegal_tiles a.advanceOne.current_player_id with
      | none => none
      | some a2 =>
        if count + 1 = a2.players.length * 2 then
          ({ a2 with terminated := true } : Acquire).provide_final_bonuses
        else moveLoop fuel a2 (count + 1)

/-- `Acquire::move_to_next_player_who_can_play_a_tile`. -/
def Acquire.move_to_next_player_who_can_play_a_tile (a : Acquire) :
    Option Acquire :=
  moveLoop (2 * a.players.length + 1) a 0

/-- The `PlaceTile` branch of `apply_action` (acting on `game`, with `self`
the pre-action snapshot used by the source for stock queries and the next
merging player). -/
def Acquire.applyPlaceTile (self : Acquire) (player_id : PlayerId)
    (tile : Tile) : Option Acquire :=
  match self.players.get? player_id with
  | none => none
  | some player =>
    match player.tiles.findIdx? (fun t => t = tile) with
    | none => none
    | some tile_idx =>
      let game1 : Acquire :=
        { self with players := (self.players.set player_id
            ({ player with tiles := player.tiles.eraseIdx tile_idx })) }
      match game1.grid.place tile with
      | none => none
      | some (result, grid') =>
        let game2 : Acquire := { game1 with grid := grid' }
        match result with
        | PlaceTileResult.Proceed =>
          let game3 : Acquire := { game2 with phase := Phase.AwaitingStockPurchase }
          if game3.grid.existing_chains.isEmpty then
            match game3.player_take_tile player_id with
            | none => none
            | some game4 => game4.move_to_next_player_who_can_play_a_tile
          else some game3
        | PlaceTileResult.SelectAvailableChain =>
          some { game2 with phase := Phase.AwaitingChainCreationSelection }
        | PlaceTileResult.DecideTieBreak tied_chains =>
          some { game2 with phase := (Phase.Merge self.current_player_id
            (MergePhase.AwaitingTiebreakSelection tied_chains) []) }
        | PlaceTileResult.Merge mergers =>
          let annotated := mergers.map (fun m =>
            { m with num_remaining_players_to_merge :=
                (some (self.num_players_with_stock_in_chain m.defunct_chain)) })
          let retained := annotated.filter
            (fun m => ¬ (m.num_remaining_players_to_merge = some 0))
          match retained with
          | [] => some { game2 with phase := Phase.AwaitingStockPurchase }
          | first :: _ =>
            match self.next_merging_player_id first.defunct_chain with
            | none => none
            | some none =>
              some { game2 with phase := Phase.AwaitingStockPurchase }
            | some (some next_merging_player_id) =>
              match game2.provide_bonuses first.defunct_chain with
              | none => none
              | some game3 =>
                some { game3 with phase := (Phase.Merge next_merging_player_id
                  MergePhase.AwaitingMergeDecision retained) }
        | PlaceTileResult.Illegal _ => none

/-- The `SelectChainToCreate` branch of `apply_action`. -/
def Acquire.applySelectChainToCreate (self : Acquire) (player_id : PlayerId)
    (chain : Chain) : Option Acquire :=
  match self.grid.previously_placed_tile_pt with
  | none => none
  | some pt =>
    let game1 : Acquire := { self with grid := self.grid.fill_chain pt chain,
                                       phase := Phase.AwaitingStockPurchase }
    match stocksWithdraw game1.stocks chain 1 with
    | some bank' =>
      ({ game1 with stocks := bank' } : Acquire).updatePlayer player_id
        (fun p => { p with stocks := stocksDeposit p.stocks chain 1 })
    | none => some game1

/-- The `PurchaseStock` branch of `apply_action`: each buy withdraws one
bank share, deposits it with the player and deducts the price at the
pre-action chain size; then draw a tile, force-replace permanently illegal
tiles, and either offer termination or advance the turn. -/
def Acquire.applyPurchaseStock (self : Acquire) (player_id : PlayerId)
    (buys : List BuyOption) : Option Acquire :=
  let afterBuys := buys.foldlM (fun (g : Acquire) buy =>
    match buy with
    | BuyOption.None => some g
    | BuyOption.Chain chain =>
      match stocksWithdraw g.stocks chain 1 with
      | none => none
      | some bank' =>
        ({ g with stocks := bank' } : Acquire).updatePlayer player_id
          (fun p =>
            { p with stocks := stocksDeposit p.stocks chain 1,
                     money := p.money -
                       chain_value chain (self.grid.chain_size chain) }))
    self
  match afterBuys with
  | none => none
  | some game1 =>
    match game1.player_take_tile player_id with
    | none => none
    | some game2 =>
      match game2.player_trade_in_illegal_tiles player_id with
      | none => none
      | some game3 =>
        if game3.may_terminate then
          some { game3 with phase := Phase.AwaitingGameTerminationDecision }
        else game3.move_to_next_player_who_can_play_a_tile

/-- The `SelectChainForTiebreak` branch of `apply_action`: the non-chosen
tied chains become additional merge pairings appended to the remaining
queue, then the first pairing's bonus is paid. -/
def Acquire.applySelectChainForTiebreak (self : Acquire)
    (tiebreak_chain : Chain) : Option Acquire :=
  match self.phase with
  | Phase.Merge merging_player_id
      (MergePhase.AwaitingTiebreakSelection tied_chains) mergers_remaining =>
    let pushed := mergers_remaining ++
      (tied_chains.filter (fun c => ¬ (c = tiebreak_chain))).map
        (fun defunct_chain => MergingChains.mk tiebreak_chain defunct_chain
          (some (self.num_players_with_stock_in_chain defunct_chain)))
    match pushed with
    | [] => none
    | first :: _ =>
      ({ self with phase := (Phase.Merge merging_player_id
          MergePhase.AwaitingMergeDecision pushed) } : Acquire).provide_bonuses
        first.defunct_chain
  | _ => none

/-- The `DecideMerge` branch of `apply_action`. -/
def Acquire.applyDecideMerge (self : Acquire)
    (action_merging_player_id : PlayerId) (decision : MergeDecision) :
    Option Acquire :=
  match self.phase with
  | Phase.Merge merging_player_id merge_phase mergers_remaining =>
    if ¬ (action_merging_player_id = merging_player_id) then none
    else
      match mergers_remaining with
      | [] => none
      | merging_chains :: rest =>
        let defunct_chain_size := self.grid.chain_size merging_chains.defunct_chain
        match self.players.get? merging_player_id with
        | none => none
        | some player =>
          match stocksWithdraw player.stocks merging_chains.defunct_chain
              (decision.sell + decision.trade_in) with
          | none => none
          | some pstocks' =>
            let player' : Player :=
              { player with
                stocks := stocksDeposit pstocks' merging_chains.merging_chain
                  (decision.trade_in / 2),
                money := player.money +
                  chain_value merging_chains.defunct_chain defunct_chain_size *
                    decision.sell }
            let game1 : Acquire :=
              { self with players := self.players.set merging_player_id player' }
            match stocksWithdraw game1.stocks merging_chains.merging_chain
                (decision.trade_in / 2) with
            | none => none
            | some bank' =>
              let game2 : Acquire :=
                { game1 with stocks := (stocksDeposit bank'
                    merging_chains.defunct_chain
                    (decision.sell + decision.trade_in)) }
              match game2.next_merging_player_id merging_chains.defunct_chain with
              | none => none
              | some (some next_merge_player_id) =>
                match merging_chains.num_remaining_players_to_merge with
                | none => none
                | some cnt =>
                  if cnt - 1 = 0 then
                    if rest.isEmpty then
                      match game2.grid.previously_placed_tile_pt with
                      | none => none
                      | some ppt =>
                        some { game2 with
                          phase := Phase.AwaitingStockPurchase,
                          grid := (game2.grid.fill_chain ppt
                            merging_chains.merging_chain) }
                    else
                      some { game2 with phase := (Phase.Merge
                        self.current_player_id merge_phase rest) }
                  else
                    some { game2 with phase := (Phase.Merge next_merge_player_id
                      merge_phase
                      (({ merging_chains with
                          num_remaining_players_to_merge := some (cnt - 1) }) :: rest)) }
              | some none =>
                if rest.isEmpty then
                  match game2.grid.previously_placed_tile_pt with
                  | none => none
                  | some ppt =>
                    some { game2 with
                      phase := Phase.AwaitingStockPurchase,
                      grid := (game2.grid.fill_chain ppt
                        merging_chains.merging_chain) }
                else
                  match rest with
                  | [] => none
                  | next_first :: _ =>
                    ({ game2 with phase := (Phase.Merge self.current_player_id
                        merge_phase rest) } : Acquire).provide_bonuses
                      next_first.defunct_chain
  | _ => none

/-- The `Terminate` branch of `apply_action`. -/
def Acquire.applyTerminate (self : Acquire) (terminate : Bool) :
    Option Acquire :=
  let game1 : Acquire := { self with terminated := terminate }
  if terminate then game1.provide_final_bonuses
  else game1.move_to_next_player_who_can_play_a_tile

/-- `Acquire::apply_action`: dispatch plus the common postlude (an early
return when the game just terminated, otherwise a step increment). -/
def Acquire.apply_action (self : Acquire) (action : GameAction) :
    Option Acquire :=
  let branch :=
    match action with
    | GameAction.PlaceTile player_id tile => self.applyPlaceTile player_id tile
    | GameAction.PurchaseStock player_id buys =>
      self.applyPurchaseStock player_id buys
    | GameAction.SelectChainToCreate player_id chain =>
      self.applySelectChainToCreate player_id chain
    | GameAction.SelectChainForTiebreak _ chain =>
      self.applySelectChainForTiebreak chain
    | GameAction.DecideMerge merging_player_id decision =>
      self.applyDecideMerge merging_player_id decision
    | GameAction.Terminate _ terminate => self.applyTerminate terminate
  match branch with
  | none => none
  | some game =>
    if game.terminated then some game
    else some { game with step := game.step + 1 }

theorem le_foldr_max (l : List Nat) (x : Nat) (h : x ∈ l) :
    x ≤ l.foldr Nat.max 0 := by
  induction l with
  | nil => cases h
  | cons a l ih =>
    rcases List.mem_cons.mp h with rfl | h2
    · exact Nat.le_max_left _ _
    · exact le_trans (ih h2) (Nat.le_max_right _ _)

theorem foldr_max_le (l : List Nat) (b : Nat) (h : ∀ x ∈ l, x ≤ b) :
    l.foldr Nat.max 0 ≤ b := by
  induction l with
  | nil => exact Nat.zero_le b
  | cons a l ih =>
    exact Nat.max_le.mpr ⟨h a (by simp), ih (fun x hx => h x (by simp [hx]))⟩

/-- C9: bonus split on a majority tie.  If exactly two players hold the
maximum (positive) stock count `M` of a chain, `chain_bonus` awards each of
them `10 * V / 2` rounded up to the nearest hundred (`V` the chain's current
per-share value), and nobody else receives anything. -/
theorem C9_bonus_split_on_majority_tie (a : Acquire) (chain : Chain)
    (p q : Player) (M : Nat)
    (hM : M = (a.players.map (fun pl => pl.stocks chain)).foldr Nat.max 0)
    (hpos : 0 < M)
    (htwo : a.players.filter (fun pl => pl.stocks chain = M) = [p, q]) :
    a.chain_bonus chain =
      [(p.id, round_up_to_nearest_hundred
          (chain_value chain (a.grid.chain_size chain) * 10 / 2)),
       (q.id, round_up_to_nearest_hundred
          (chain_value chain (a.grid.chain_size chain) * 10 / 2))] := by
  have hpmem : p ∈ a.players.filter (fun pl => pl.stocks chain = M) := by
    rw [htwo]
    simp
  have hpP : p ∈ a.players := List.mem_of_mem_filter hpmem
  have hpM : p.stocks chain = M := by
    have := List.of_mem_filter hpmem
    simpa using this
  have hpws : p ∈ a.players_with_stock chain := by
    unfold Acquire.players_with_stock
    refine List.mem_filter.mpr ⟨hpP, ?_⟩
    simp [stocksHasAny, hpM]
    omega
  -- the maximum over stock holders is the maximum over everyone
  have hmost : a.most_stock_held chain = M := by
    apply le_antisymm
    · apply foldr_max_le
      intro x hx
      rcases List.mem_map.mp hx with ⟨pl, hpl, rfl⟩
      have hplP : pl ∈ a.players := List.mem_of_mem_filter hpl
      rw [hM]
      exact le_foldr_max _ _ (List.mem_map.mpr ⟨pl, hplP, rfl⟩)
    · rw [← hpM]
      exact le_foldr_max _ _ (List.mem_map.mpr ⟨p, hpws, rfl⟩)
  have hmost_list : a.players_with_most_stock chain = [p, q] := by
    unfold Acquire.players_with_most_stock Acquire.players_with_stock
    rw [hmost, List.filter_filter, ← htwo]
    apply List.filter_congr
    intro pl _
    by_cases h : pl.stocks chain = M
    · have h1 : stocksHasAny pl.stocks chain = true := by
        simp [stocksHasAny, h]
        omega
      simp [h, h1]
    · simp [h]
  have hne : (a.players_with_stock chain).isEmpty = false := by
    cases hlist : a.players_with_stock chain with
    | nil => rw [hlist] at hpws; cases hpws
    | cons x xs => rfl
  have hmost0 : ¬ (a.most_stock_held chain = 0) := by
    rw [hmost]
    omega
  unfold Acquire.chain_bonus
  rw [hne, if_neg hmost0, hmost_list]
  rw [if_pos (Or.inl (by simp))]
  simp

/-- Concrete game for the C9 witness: two players, each holding three
Tower shares; Tower has size 2 on the board (per-share value 200). -/
def c9p0 : Player :=
  { id := 0, tiles := [],
    stocks := fun c => match c with | Chain.Tower => 3 | _ => 0,
    money := 6000 }

def c9p1 : Player :=
  { id := 1, tiles := [],
    stocks := fun c => match c with | Chain.Tower => 3 | _ => 0,
    money := 6000 }

def c9Game : Acquire :=
  { phase := Phase.AwaitingStockPurchase,
    players := [c9p0, c9p1],
    tiles := [],
    stocks := fun _ => 25,
    grid := { width := 12, height := 9,
              data := [(⟨0,0⟩, Slot.Chain Chain.Tower),
                       (⟨1,0⟩, Slot.Chain Chain.Tower)],
              chain_sizes := fun c => match c with
                | Chain.Tower => 2
                | _ => 0,
              previously_placed_tile_pt := none },
    current_player_id := 0, turn := 1, step := 0, terminated := false }

/-- Witness for C9: a Tower of value 200 pays each of the two tied holders
`roundup(2000 / 2) = 1000` and nothing to anyone else. -/
theorem C9_witness :
    c9Game.chain_bonus Chain.Tower = [(0, 1000), (1, 1000)] := by
  have h := C9_bonus_split_on_majority_tie c9Game Chain.Tower c9p0 c9p1 3
    rfl (by decide) rfl
  rw [h]
  rfl

theorem updatePlayer_fields (a : Acquire) (pid : PlayerId) (f : Player → Player)
    (b : Acquire) (h : a.updatePlayer pid f = some b) :
    b.phase = a.phase ∧ b.tiles = a.tiles ∧ b.stocks = a.stocks ∧
    b.grid = a.grid ∧ b.current_player_id = a.current_player_id ∧
    b.terminated = a.terminated ∧ b.players.length = a.players.length := by
  unfold Acquire.updatePlayer at h
  cases hp : a.players.get? pid with
  | none => rw [hp] at h; cases h
  | some p =>
    rw [hp] at h
    simp only [Option.some.injEq] at h
    subst h
    exact ⟨rfl, rfl, rfl, rfl, rfl, rfl, by simp⟩

theorem foldlM_preserve_acquire {α : Type} (R : Acquire → Acquire → Prop)
    (hrefl : ∀ x, R x x) (htrans : ∀ x y z, R x y → R y z → R x z)
    (f : Acquire → α → Option Acquire)
    (hf : ∀ x i y, f x i = some y → R x y) :
    ∀ (l : List α) (x y : Acquire), l.foldlM f x = some y → R x y := by
  intro l
  induction l with
  | nil =>
    intro x y h
    simp only [List.foldlM_nil, Option.pure_def, Option.some.injEq] at h
    subst h
    exact hrefl x
  | cons i l ih =>
    intro x y h
    simp only [List.foldlM_cons] at h
    cases hx : f x i with
    | none => rw [hx] at h; cases h
    | some c =>
      rw [hx] at h
      simp only [Option.bind_eq_bind, Option.some_bind] at h
      exact htrans x c y (hf x i c hx) (ih c y h)

/-- The fields untouched by a bonus payout (everything but the players'
money). -/
def BonusFieldsEq (a b : Acquire) : Prop :=
  b.phase = a.phase ∧ b.tiles = a.tiles ∧ b.stocks = a.stocks ∧
  b.grid = a.grid ∧ b.current_player_id = a.current_player_id ∧
  b.terminated = a.terminated ∧ b.players.length = a.players.length

theorem provide_bonuses_fields (a : Acquire) (chain : Chain) (b : Acquire)
    (h : a.provide_bonuses chain = some b) : BonusFieldsEq a b := by
  refine foldlM_preserve_acquire BonusFieldsEq
    (fun x => ⟨rfl, rfl, rfl, rfl, rfl, rfl, rfl⟩) ?_ _ ?_ _ a b h
  · rintro x y z ⟨h1, h2, h3, h4, h5, h6, h7⟩ ⟨g1, g2, g3, g4, g5, g6, g7⟩
    exact ⟨g1.trans h1, g2.trans h2, g3.trans h3, g4.trans h4, g5.trans h5,
      g6.trans h6, g7.trans h7⟩
  · intro x i y hx
    exact updatePlayer_fields x i.1 _ y hx

theorem provide_final_bonuses_fields (a b : Acquire)
    (h : a.provide_final_bonuses = some b) : BonusFieldsEq a b := by
  refine foldlM_preserve_acquire BonusFieldsEq
    (fun x => ⟨rfl, rfl, rfl, rfl, rfl, rfl, rfl⟩) ?_ _ ?_ _ a b h
  · rintro x y z ⟨h1, h2, h3, h4, h5, h6, h7⟩ ⟨g1, g2, g3, g4, g5, g6, g7⟩
    exact ⟨g1.trans h1, g2.trans h2, g3.trans h3, g4.trans h4, g5.trans h5,
      g6.trans h6, g7.trans h7⟩
  · intro x i y hx
    exact provide_bonuses_fields x i y hx

theorem trade_in_fields (a : Acquire) (pid : PlayerId) (b : Acquire)
    (h : a.player_trade_in_illegal_tiles pid = some b) :
    b.phase = a.phase ∧ b.stocks = a.stocks ∧ b.grid = a.grid ∧
    b.current_player_id = a.current_player_id ∧
    b.terminated = a.terminated ∧ b.players.length = a.players.length := by
  unfold Acquire.player_trade_in_illegal_tiles at h
  split at h
  · cases h
  · split at h
    · cases h
    · simp only [Option.some.injEq] at h
      subst h
      exact ⟨rfl, rfl, rfl, rfl, rfl, by simp⟩

/-- Part (A) of the amended C2: whenever the turn-advance loop returns, the
game either just terminated, or the termination flag is untouched, the
phase is tile placement, and the new current player does hold a placeable
tile. -/
theorem moveLoop_some (fuel : Nat) :
    ∀ (count : Nat) (a g' : Acquire), moveLoop fuel a count = some g' →
    g'.terminated = true ∨
      (g'.terminated = a.terminated ∧ g'.phase = Phase.AwaitingTilePlacement ∧
        g'.player_has_any_valid_tiles g'.current_player_id = some true) := by
  induction fuel with
  | zero => intro count a g' h; simp [moveLoop] at h
  | succ fuel ih =>
    intro count a g' h
    unfold moveLoop at h
    cases hv : a.advanceOne.player_has_any_valid_tiles
        a.advanceOne.current_player_id with
    | none => rw [hv] at h; cases h
    | some b =>
      rw [hv] at h
      cases b with
      | true =>
        dsimp only at h
        simp only [Option.some.injEq] at h
        subst h
        exact Or.inr ⟨rfl, rfl, hv⟩
      | false =>
        dsimp only at h
        cases ht : a.advanceOne.player_trade_in_illegal_tiles
            a.advanceOne.current_player_id with
        | none => rw [ht] at h; cases h
        | some a2 =>
          rw [ht] at h
          dsimp only at h
          split_ifs at h with hcount
          · have hf := provide_final_bonuses_fields _ _ h
            exact Or.inl hf.2.2.2.2.2.1
          · rcases ih (count + 1) a2 g' h with h1 | ⟨h1, h2, h3⟩
            · exact Or.inl h1
            · have hterm : a2.terminated = a.terminated :=
                (trade_in_fields _ _ _ ht).2.2.2.2.1
              exact Or.inr ⟨h1.trans hterm, h2, h3⟩

/-- A game state in which the draw pile is empty and nobody holds a tile on
a legal empty slot. -/
def StuckState (a : Acquire) : Prop :=
  a.tiles = [] ∧
  ∀ p ∈ a.players, ∀ t ∈ p.tiles,
    ¬ (a.grid.get t.pt = Slot.Empty Legality.Legal)

theorem hasValidLoop_not_true (g : Grid) (ts : List Tile)
    (h : ∀ t ∈ ts, ¬ (g.get t.pt = Slot.Empty Legality.Legal)) :
    hasValidLoop g ts ≠ some true := by
  induction ts with
  | nil => simp [hasValidLoop]
  | cons t ts ih =>
    unfold hasValidLoop
    cases hget : g.get t.pt with
    | Empty l =>
      cases l with
      | Legal => exact absurd hget (h t (by simp))
      | TemporarilyIllegal => exact ih (fun t2 ht2 => h t2 (by simp [ht2]))
      | PermanentIllegal => exact ih (fun t2 ht2 => h t2 (by simp [ht2]))
    | NoChain => simp
    | Limbo => simp
    | Chain c => simp

theorem tradeFilterLoop_subset (g : Grid) (ts kept : List Tile)
    (h : tradeFilterLoop g ts = some kept) : ∀ t ∈ kept, t ∈ ts := by
  induction ts generalizing kept with
  | nil =>
    simp only [tradeFilterLoop, Option.some.injEq] at h
    subst h
    simp
  | cons t ts ih =>
    unfold tradeFilterLoop at h
    cases hget : g.get t.pt with
    | Empty l =>
      rw [hget] at h
      cases l with
      | PermanentIllegal =>
        dsimp only at h
        intro t2 ht2
        exact List.mem_cons_of_mem t (ih kept h t2 ht2)
      | Legal =>
        dsimp only at h
        cases hrest : tradeFilterLoop g ts with
        | none => rw [hrest] at h; cases h
        | some k =>
          rw [hrest] at h
          simp only [Option.map_some', Option.some.injEq] at h
          subst h
          intro t2 ht2
          rcases List.mem_cons.mp ht2 with rfl | h2
          · exact List.mem_cons_self _ _
          · exact List.mem_cons_of_mem _ (ih k hrest t2 h2)
      | TemporarilyIllegal =>
        dsimp only at h
        cases hrest : tradeFilterLoop g ts with
        | none => rw [hrest] at h; cases h
        | some k =>
          rw [hrest] at h
          simp only [Option.map_some', Option.some.injEq] at h
          subst h
          intro t2 ht2
          rcases List.mem_cons.mp ht2 with rfl | h2
          · exact List.mem_cons_self _ _
          · exact List.mem_cons_of_mem _ (ih k hrest t2 h2)
    | NoChain => rw [hget] at h; cases h
    | Limbo => rw [hget] at h; cases h
    | Chain c => rw [hget] at h; cases h

theorem trade_in_stuck (a : Acquire) (pid : PlayerId) (b : Acquire)
    (hstuck : StuckState a) (h : a.player_trade_in_illegal_tiles pid = some b) :
    StuckState b := by
  obtain ⟨hbag, hhands⟩ := hstuck
  unfold Acquire.player_trade_in_illegal_tiles at h
  cases hp : a.players.get? pid with
  | none => rw [hp] at h; cases h
  | some p =>
    rw [hp] at h
    dsimp only at h
    cases hk : tradeFilterLoop a.grid p.tiles with
    | none => rw [hk] at h; cases h
    | some kept =>
      rw [hk] at h
      dsimp only at h
      simp only [Option.some.injEq] at h
      subst h
      have hpmem : p ∈ a.players := List.get?_mem hp
      constructor
      · simp [hbag]
      · intro q hq t ht
        show ¬ (a.grid.get t.pt = Slot.Empty Legality.Legal)
        rcases List.mem_or_eq_of_mem_set hq with hq2 | rfl
        · exact hhands q hq2 t ht
        · simp only [hbag, List.length_nil, Nat.sub_self, List.drop_nil,
            List.reverse_nil, List.append_nil] at ht
          have ht2 : t ∈ p.tiles := tradeFilterLoop_subset a.grid p.tiles kept hk t (by
            simpa [hbag] using ht)
          exact hhands p hpmem t ht2

theorem advanceOne_stuck (a : Acquire) (h : StuckState a) :
    StuckState a.advanceOne := h

/-- Part (B) of the amended C2: from a stuck state (empty pile, no player
holds a placeable tile even after trade-ins, which can add nothing), the
loop can only return a terminated game. -/
theorem moveLoop_stuck (fuel : Nat) :
    ∀ (count : Nat) (a g' : Acquire), StuckState a →
    moveLoop fuel a count = some g' → g'.terminated = true := by
  induction fuel with
  | zero => intro count a g' _ h; simp [moveLoop] at h
  | succ fuel ih =>
    intro count a g' hstuck h
    unfold moveLoop at h
    cases hv : a.advanceOne.player_has_any_valid_tiles
        a.advanceOne.current_player_id with
    | none => rw [hv] at h; cases h
    | some b =>
      rw [hv] at h
      cases b with
      | true =>
        exfalso
        have hstuck1 : StuckState a.advanceOne := advanceOne_stuck a hstuck
        unfold Acquire.player_has_any_valid_tiles at hv
        cases hp : a.advanceOne.players.get? a.advanceOne.current_player_id with
        | none => rw [hp] at hv; cases hv
        | some p =>
          rw [hp] at hv
          exact hasValidLoop_not_true a.advanceOne.grid p.tiles
            (hstuck1.2 p (List.get?_mem hp)) hv
      | false =>
        dsimp only at h
        cases ht : a.advanceOne.player_trade_in_illegal_tiles
            a.advanceOne.current_player_id with
        | none => rw [ht] at h; cases h
        | some a2 =>
          rw [ht] at h
          dsimp only at h
          have hstuck2 : StuckState a2 :=
            trade_in_stuck a.advanceOne _ a2 (advanceOne_stuck a hstuck) ht
          split_ifs at h with hcount
          · exact (provide_final_bonuses_fields _ _ h).2.2.2.2.2.1
          · exact ih (count + 1) a2 g' hstuck2 h

/-- C2 (amended): after a `PurchaseStock` that does not reach the
termination-decision phase, the engine runs
`move_to_next_player_who_can_play_a_tile`.  Whenever that call returns, (A)
either the game was just terminated with the final bonus payout, or the
termination flag is unchanged, the phase is tile placement and the new
current player holds a placeable tile; and (B) if no player can ever act
(empty draw pile and no hand tile on a legal slot - so the per-skip
trade-ins cannot re-enable anyone), the returned game is terminated.  The
loop checks each seat TWICE (`count == players.len() * 2`), not once as the
original claim stated. -/
theorem C2_turn_advance_amended (a : Acquire) :
    (∀ g', a.move_to_next_player_who_can_play_a_tile = some g' →
      g'.terminated = true ∨
        (g'.terminated = a.terminated ∧
          g'.phase = Phase.AwaitingTilePlacement ∧
          g'.player_has_any_valid_tiles g'.current_player_id = some true)) ∧
    (StuckState a →
      ∀ g', a.move_to_next_player_who_can_play_a_tile = some g' →
        g'.terminated = true) := by
  constructor
  · intro g' h
    exact moveLoop_some (2 * a.players.length + 1) 0 a g' h
  · intro hstuck g' h
    exact moveLoop_stuck (2 * a.players.length + 1) 0 a g' hstuck h

/-- Player records for the C2 counterexample: player 0 holds six tiles on
temporarily illegal slots, player 1 six tiles on permanently illegal
slots. -/
def c2p0 : Player :=
  { id := 0,
    tiles := [⟨⟨0,0⟩⟩, ⟨⟨1,0⟩⟩, ⟨⟨2,0⟩⟩, ⟨⟨3,0⟩⟩, ⟨⟨4,0⟩⟩, ⟨⟨5,0⟩⟩],
    stocks := fun _ => 0, money := 6000 }

def c2p1 : Player :=
  { id := 1,
    tiles := [⟨⟨0,1⟩⟩, ⟨⟨1,1⟩⟩, ⟨⟨2,1⟩⟩, ⟨⟨3,1⟩⟩, ⟨⟨4,1⟩⟩, ⟨⟨5,1⟩⟩],
    stocks := fun _ => 0, money := 6000 }

/-- The C2 counterexample game: stock-purchase phase, two players, and a
draw pile of exactly two tiles - the back one sits on a permanently illegal
slot (player 0 will draw and immediately discard it), the front one on a
legal slot (player 1 will receive it during the auto trade-in of its first
skip, and can then play on the SECOND round of the advance loop). -/
def c2Grid : Grid :=
  { width := 12, height := 9,
    data :=
      [(⟨0,0⟩, Slot.Empty Legality.TemporarilyIllegal),
       (⟨1,0⟩, Slot.Empty Legality.TemporarilyIllegal),
       (⟨2,0⟩, Slot.Empty Legality.TemporarilyIllegal),
       (⟨3,0⟩, Slot.Empty Legality.TemporarilyIllegal),
       (⟨4,0⟩, Slot.Empty Legality.TemporarilyIllegal),
       (⟨5,0⟩, Slot.Empty Legality.TemporarilyIllegal),
       (⟨0,1⟩, Slot.Empty Legality.PermanentIllegal),
       (⟨1,1⟩, Slot.Empty Legality.PermanentIllegal),
       (⟨2,1⟩, Slot.Empty Legality.PermanentIllegal),
       (⟨3,1⟩, Slot.Empty Legality.PermanentIllegal),
       (⟨4,1⟩, Slot.Empty Legality.PermanentIllegal),
       (⟨5,1⟩, Slot.Empty Legality.PermanentIllegal),
       (⟨6,1⟩, Slot.Empty Legality.PermanentIllegal)],
    chain_sizes := fun _ => 0,
    previously_placed_tile_pt := none }

def c2Game : Acquire :=
  { phase := Phase.AwaitingStockPurchase,
    players := [c2p0, c2p1],
    tiles := [⟨⟨6,0⟩⟩, ⟨⟨6,1⟩⟩],
    stocks := fun _ => 25,
    grid := c2Grid,
    current_player_id := 0, turn := 1, step := 0, terminated := false }

/-- C2 counterexample: the claim says the game terminates with the final
bonus payout "if no player can act within one full round (i.e. after
skipping every player once)".  Here the `PurchaseStock` is a legal action
and does not reach the termination-decision phase; at their first checks of
the advance loop neither player holds a placeable tile (player 1 holds only
permanently illegal tiles, player 0 only temporarily illegal ones, and the
tile player 0 draws is permanently illegal and discarded) - so under the
claim the game must terminate.  The code instead runs a SECOND round
(`count == players.len() * 2`): player 1's auto trade-in handed it the
legal tile from the pile, its second check succeeds, and the game continues
untermimated with player 1 to move. -/
theorem C2_one_round_counterexample :
    c2Game.may_terminate = false ∧
    (GameAction.PurchaseStock 0 [BuyOption.None, BuyOption.None, BuyOption.None]
      ∈ c2Game.actions) ∧
    c2p1.tiles.all
      (fun t => ¬ (c2Game.grid.get t.pt = Slot.Empty Legality.Legal)) = true ∧
    c2p0.tiles.all
      (fun t => ¬ (c2Game.grid.get t.pt = Slot.Empty Legality.Legal)) = true ∧
    c2Game.grid.get ⟨6,1⟩ = Slot.Empty Legality.PermanentIllegal ∧
    (c2Game.apply_action (GameAction.PurchaseStock 0
        [BuyOption.None, BuyOption.None, BuyOption.None])).map
      (fun g => (g.terminated, g.phase, g.current_player_id)) =
      some (false, Phase.AwaitingTilePlacement, 1) := by
  refine ⟨by decide, by decide, by decide, by decide, by decide, by decide⟩

/-- A fully stuck game for the C2 witness: empty pile, both hands
permanently illegal. -/
def c2StuckGrid : Grid :=
  { width := 12, height := 9,
    data :=
      [(⟨0,1⟩, Slot.Empty Legality.PermanentIllegal),
       (⟨1,1⟩, Slot.Empty Legality.PermanentIllegal),
       (⟨2,1⟩, Slot.Empty Legality.PermanentIllegal),
       (⟨3,1⟩, Slot.Empty Legality.PermanentIllegal)],
    chain_sizes := fun _ => 0,
    previously_placed_tile_pt := none }

def c2sp0 : Player :=
  { id := 0, tiles := [⟨⟨0,1⟩⟩, ⟨⟨1,1⟩⟩], stocks := fun _ => 0, money := 6000 }

def c2sp1 : Player :=
  { id := 1, tiles := [⟨⟨2,1⟩⟩, ⟨⟨3,1⟩⟩], stocks := fun _ => 0, money := 6000 }

def c2StuckGame : Acquire :=
  { phase := Phase.AwaitingStockPurchase,
    players := [c2sp0, c2sp1],
    tiles := [],
    stocks := fun _ => 25,
    grid := c2StuckGrid,
    current_player_id := 0, turn := 1, step := 0, terminated := false }

/-- Witness for the amended C2: on the stuck game the advance loop does
return, and the returned game is terminated. -/
theorem C2_witness :
    (c2StuckGame.move_to_next_player_who_can_play_a_tile).map
      (fun g => g.terminated) = some true := by
  cases hmv : c2StuckGame.move_to_next_player_who_can_play_a_tile with
  | none =>
    exfalso
    have hs : (c2StuckGame.move_to_next_player_who_can_play_a_tile).isSome
        = true := by decide
    rw [hmv] at hs
    cases hs
  | some g' =>
    have hterm := (C2_turn_advance_amended c2StuckGame).2 ⟨rfl, by decide⟩ g' hmv
    simp [hterm]

/-- Total hand size over all players. -/
def handSum (a : Acquire) : Nat :=
  (a.players.map (fun p => p.tiles.length)).sum

/-- Tile census of a game state: draw bag, all hands, occupied grid slots. -/
def totalTiles (a : Acquire) : Nat :=
  a.tiles.length + handSum a + occupiedCount a.grid

/-- Shares of a chain in circulation: bank holdings plus every player's. -/
def stockSum (a : Acquire) (c : Chain) : Nat :=
  a.stocks c + (a.players.map (fun p => p.stocks c)).sum

theorem sum_map_set {α : Type} (f : α → Nat) :
    ∀ (l : List α) (i : Nat) (x y : α), l.get? i = some y →
    ((l.set i x).map f).sum + f y = (l.map f).sum + f x := by
  intro l
  induction l with
  | nil => intro i x y h; simp at h
  | cons a l ih =>
    intro i x y h
    cases i with
    | zero =>
      rw [List.get?_cons_zero, Option.some.injEq] at h
      subst h
      simp only [List.set_cons_zero, List.map_cons, List.sum_cons]
      omega
    | succ n =>
      rw [List.get?_cons_succ] at h
      have := ih n x y h
      simp only [List.set_cons_succ, List.map_cons, List.sum_cons]
      omega

theorem updatePlayer_eq (a : Acquire) (pid : PlayerId) (f : Player → Player)
    (b : Acquire) (h : a.updatePlayer pid f = some b) :
    ∃ p, a.players.get? pid = some p ∧
      b = { a with players := a.players.set pid (f p) } := by
  unfold Acquire.updatePlayer at h
  cases hp : a.players.get? pid with
  | none => rw [hp] at h; cases h
  | some p =>
    rw [hp] at h
    simp only [Option.some.injEq] at h
    exact ⟨p, rfl, h.symm⟩

theorem stockSum_set_player (a : Acquire) (pid : PlayerId) (p q : Player)
    (hp : a.players.get? pid = some p) (c : Chain) :
    stockSum { a with players := a.players.set pid q } c + p.stocks c =
      stockSum a c + q.stocks c := by
  have hs := sum_map_set (fun r : Player => r.stocks c) a.players pid q p hp
  unfold stockSum
  dsimp only at hs ⊢
  omega

theorem handSum_set_player (a : Acquire) (pid : PlayerId) (p q : Player)
    (hp : a.players.get? pid = some p) :
    handSum { a with players := a.players.set pid q } + p.tiles.length =
      handSum a + q.tiles.length := by
  have hs := sum_map_set (fun r : Player => r.tiles.length) a.players pid q p hp
  unfold handSum
  dsimp only at hs ⊢
  omega

theorem stocksDeposit_apply (st : Chain → Nat) (c : Chain) (amount : Nat)
    (d : Chain) :
    stocksDeposit st c amount d = st d + (if d = c then amount else 0) := by
  unfold stocksDeposit
  by_cases h0 : amount = 0
  · simp [h0]
  · rw [if_neg h0, Function.update_apply]
    by_cases hc : d = c
    · simp [hc]
    · simp [hc]

theorem stocksWithdraw_eq_some (st : Chain → Nat) (c : Chain) (amount : Nat)
    (bank2 : Chain → Nat) (h : stocksWithdraw st c amount = some bank2) :
    amount ≤ st c ∧ ∀ d, bank2 d = st d - (if d = c then amount else 0) := by
  unfold stocksWithdraw at h
  by_cases hlt : st c < amount
  · rw [if_pos hlt] at h; cases h
  · rw [if_neg hlt] at h
    simp only [Option.some.injEq] at h
    subst h
    refine ⟨by omega, fun d => ?_⟩
    rw [Function.update_apply]
    by_cases hc : d = c
    · subst hc; simp
    · simp [hc]

/-- `updatePlayer` with a stocks-preserving player function preserves the
circulation count of every chain. -/
theorem updatePlayer_stockSum (a : Acquire) (pid : PlayerId)
    (f : Player → Player) (b : Acquire) (h : a.updatePlayer pid f = some b)
    (hf : ∀ p, (f p).stocks = p.stocks) (c : Chain) :
    stockSum b c = stockSum a c := by
  obtain ⟨p, hp, rfl⟩ := updatePlayer_eq a pid f b h
  have := stockSum_set_player a pid p (f p) hp c
  rw [hf p] at this
  omega

/-- A bank withdrawal paired with a deposit of the same amount with one
player preserves the circulation count of every chain. -/
theorem stockSum_bank_to_player (a : Acquire) (pid : PlayerId) (chain : Chain)
    (n : Nat) (bank2 : Chain → Nat) (f : Player → Player) (b : Acquire)
    (hw : stocksWithdraw a.stocks chain n = some bank2)
    (hf : ∀ p, (f p).stocks = stocksDeposit p.stocks chain n)
    (hb : ({ a with stocks := bank2 } : Acquire).updatePlayer pid f = some b)
    (c : Chain) : stockSum b c = stockSum a c := by
  obtain ⟨hle, hbank⟩ := stocksWithdraw_eq_some a.stocks chain n bank2 hw
  obtain ⟨p, hp, rfl⟩ := updatePlayer_eq _ pid f b hb
  have hs := sum_map_set (fun r : Player => r.stocks c)
    a.players pid (f p) p hp
  dsimp only at hs
  have hdep : (f p).stocks c = p.stocks c + (if c = chain then n else 0) := by
    rw [hf p, stocksDeposit_apply]
  have hbc := hbank c
  unfold stockSum
  dsimp only at hs ⊢
  by_cases hc : c = chain
  · subst hc
    rw [if_pos rfl] at hdep hbc
    omega
  · rw [if_neg hc] at hdep
    rw [if_neg hc] at hbc
    omega

theorem stockSum_set_player_eq (a : Acquire) (pid : PlayerId) (p q : Player)
    (hp : a.players.get? pid = some p) (hq : q.stocks = p.stocks) (c : Chain) :
    stockSum { a with players := a.players.set pid q } c = stockSum a c := by
  have hs := stockSum_set_player a pid p q hp c
  rw [hq] at hs
  omega

theorem stockSum_set_tiles (a : Acquire) (pid : PlayerId) (p q : Player)
    (bag : List Tile) (hp : a.players.get? pid = some p)
    (hq : q.stocks = p.stocks) (c : Chain) :
    stockSum { a with tiles := bag, players := a.players.set pid q } c =
      stockSum a c := by
  have hs := sum_map_set (fun r : Player => r.stocks c) a.players pid q p hp
  dsimp only at hs
  have hqc : q.stocks c = p.stocks c := by rw [hq]
  unfold stockSum
  dsimp only
  omega

theorem player_take_tile_stockSum (a : Acquire) (pid : PlayerId) (b : Acquire)
    (h : a.player_take_tile pid = some b) (c : Chain) :
    stockSum b c = stockSum a c := by
  unfold Acquire.player_take_tile at h
  split_ifs at h with he
  · simp only [Option.some.injEq] at h
    subst h
    rfl
  · cases hl : a.tiles.getLast? with
    | none =>
      rw [hl] at h
      simp only [Option.some.injEq] at h
      subst h
      rfl
    | some tile =>
      rw [hl] at h
      exact updatePlayer_stockSum _ pid _ b h (fun p => rfl) c

/-- The result shape of a successful `player_trade_in_illegal_tiles`. -/
theorem trade_in_eq (a : Acquire) (pid : PlayerId) (b : Acquire)
    (h : a.player_trade_in_illegal_tiles pid = some b) :
    ∃ p kept, a.players.get? pid = some p ∧
      tradeFilterLoop a.grid p.tiles = some kept ∧
      b = { a with
        tiles := a.tiles.take
          (a.tiles.length - min (6 - kept.length) a.tiles.length),
        players := a.players.set pid { p with
          tiles := kept ++ (a.tiles.drop
            (a.tiles.length - min (6 - kept.length) a.tiles.length)).reverse } } := by
  unfold Acquire.player_trade_in_illegal_tiles at h
  cases hp : a.players.get? pid with
  | none => rw [hp] at h; cases h
  | some p =>
    rw [hp] at h
    dsimp only at h
    cases hk : tradeFilterLoop a.grid p.tiles with
    | none => rw [hk] at h; cases h
    | some kept =>
      rw [hk] at h
      dsimp only at h
      simp only [Option.some.injEq] at h
      exact ⟨p, kept, rfl, hk, h.symm⟩

theorem trade_in_stockSum (a : Acquire) (pid : PlayerId) (b : Acquire)
    (h : a.player_trade_in_illegal_tiles pid = some b) (c : Chain) :
    stockSum b c = stockSum a c := by
  obtain ⟨p, kept, hp, hk, rfl⟩ := trade_in_eq a pid b h
  exact stockSum_set_tiles a pid p
    ({ p with tiles := kept ++ (a.tiles.drop
        (a.tiles.length - min (6 - kept.length) a.tiles.length)).reverse })
    (a.tiles.take (a.tiles.length - min (6 - kept.length) a.tiles.length))
    hp rfl c

theorem provide_bonuses_stockSum (a : Acquire) (chain : Chain) (b : Acquire)
    (h : a.provide_bonuses chain = some b) (c : Chain) :
    stockSum b c = stockSum a c := by
  refine (foldlM_preserve_acquire
    (fun x y => ∀ d, stockSum y d = stockSum x d)
    (fun x d => rfl) ?_ _ ?_ _ a b h) c
  · intro x y z h1 h2 d
    rw [h2 d, h1 d]
  · intro x i y hx d
    exact updatePlayer_stockSum x i.1 _ y hx (fun p => rfl) d

theorem provide_final_bonuses_stockSum (a b : Acquire)
    (h : a.provide_final_bonuses = some b) (c : Chain) :
    stockSum b c = stockSum a c := by
  refine (foldlM_preserve_acquire
    (fun x y => ∀ d, stockSum y d = stockSum x d)
    (fun x d => rfl) ?_ _ ?_ _ a b h) c
  · intro x y z h1 h2 d
    rw [h2 d, h1 d]
  · intro x i y hx d
    exact provide_bonuses_stockSum x i y hx d

theorem moveLoop_stockSum (fuel : Nat) :
    ∀ (count : Nat) (a g2 : Acquire), moveLoop fuel a count = some g2 →
    ∀ c, stockSum g2 c = stockSum a c := by
  induction fuel with
  | zero => intro count a g2 h; simp [moveLoop] at h
  | succ fuel ih =>
    intro count a g2 h c
    unfold moveLoop at h
    cases hv : a.advanceOne.player_has_any_valid_tiles
        a.advanceOne.current_player_id with
    | none => rw [hv] at h; cases h
    | some bt =>
      rw [hv] at h
      cases bt with
      | true =>
        dsimp only at h
        simp only [Option.some.injEq] at h
        subst h
        rfl
      | false =>
        dsimp only at h
        cases ht : a.advanceOne.player_trade_in_illegal_tiles
            a.advanceOne.current_player_id with
        | none => rw [ht] at h; cases h
        | some a2 =>
          rw [ht] at h
          dsimp only at h
          split_ifs at h with hcount
          · exact (provide_final_bonuses_stockSum _ _ h c).trans
              (trade_in_stockSum _ _ _ ht c)
          · exact (ih _ _ _ h c).trans (trade_in_stockSum _ _ _ ht c)

theorem applyPlaceTile_stockSum (a : Acquire) (pid : PlayerId) (tile : Tile)
    (b : Acquire) (h : a.applyPlaceTile pid tile = some b) (c : Chain) :
    stockSum b c = stockSum a c := by
  unfold Acquire.applyPlaceTile at h
  cases hp : a.players.get? pid with
  | none => rw [hp] at h; cases h
  | some player =>
    rw [hp] at h
    dsimp only at h
    cases hidx : player.tiles.findIdx? (fun t => t = tile) with
    | none => rw [hidx] at h; cases h
    | some tidx =>
      rw [hidx] at h
      dsimp only at h
      have hg1 : stockSum ({ a with players := (a.players.set pid
          { player with tiles := player.tiles.eraseIdx tidx }) } : Acquire) c =
          stockSum a c :=
        stockSum_set_player_eq a pid player
          { player with tiles := player.tiles.eraseIdx tidx } hp rfl c
      cases hpl : a.grid.place tile with
      | none => rw [hpl] at h; cases h
      | some rg =>
        rw [hpl] at h
        obtain ⟨result, grid2⟩ := rg
        dsimp only at h
        cases result with
        | Proceed =>
          dsimp only at h
          split_ifs at h with hemp
          · split at h
            next htt => cases h
            next game4 htt =>
              unfold Acquire.move_to_next_player_who_can_play_a_tile at h
              have h4 := player_take_tile_stockSum _ pid game4 htt c
              have h5 := moveLoop_stockSum _ _ _ _ h c
              rw [h5, h4]
              exact hg1
          · simp only [Option.some.injEq] at h
            subst h
            exact hg1
        | SelectAvailableChain =>
          simp only [Option.some.injEq] at h
          subst h
          exact hg1
        | DecideTieBreak tied =>
          simp only [Option.some.injEq] at h
          subst h
          exact hg1
        | Merge mergers =>
          dsimp only at h
          split at h
          next heq =>
            simp only [Option.some.injEq] at h
            subst h
            exact hg1
          next first rest heq =>
            split at h
            next hnm => cases h
            next hnm =>
              simp only [Option.some.injEq] at h
              subst h
              exact hg1
            next nmpid hnm =>
              split at h
              next hpb => cases h
              next game3 hpb =>
                simp only [Option.some.injEq] at h
                subst h
                have h3 := provide_bonuses_stockSum _ _ _ hpb c
                exact h3.trans hg1
        | Illegal perm => cases h

theorem applySelectChainToCreate_stockSum (a : Acquire) (pid : PlayerId)
    (chain : Chain) (b : Acquire)
    (h : a.applySelectChainToCreate pid chain = some b) (c : Chain) :
    stockSum b c = stockSum a c := by
  unfold Acquire.applySelectChainToCreate at h
  cases hpt : a.grid.previously_placed_tile_pt with
  | none => rw [hpt] at h; cases h
  | some pt =>
    rw [hpt] at h
    dsimp only at h
    cases hw : stocksWithdraw a.stocks chain 1 with
    | some bank2 =>
      rw [hw] at h
      exact stockSum_bank_to_player
        ({ a with grid := (a.grid.fill_chain pt chain), phase := Phase.AwaitingStockPurchase } : Acquire)
        pid chain 1 bank2
        (fun p => { p with stocks := stocksDeposit p.stocks chain 1 })
        b hw (fun p => rfl) h c
    | none =>
      rw [hw] at h
      simp only [Option.some.injEq] at h
      subst h
      rfl

theorem applyPurchaseStock_stockSum (a : Acquire) (pid : PlayerId)
    (buys : List BuyOption) (b : Acquire)
    (h : a.applyPurchaseStock pid buys = some b) (c : Chain) :
    stockSum b c = stockSum a c := by
  unfold Acquire.applyPurchaseStock at h
  dsimp only at h
  cases hab : buys.foldlM (fun (g : Acquire) buy =>
      match buy with
      | BuyOption.None => some g
      | BuyOption.Chain chain =>
        match stocksWithdraw g.stocks chain 1 with
        | none => none
        | some bank2 =>
          ({ g with stocks := bank2 } : Acquire).updatePlayer pid
            (fun p =>
              { p with stocks := stocksDeposit p.stocks chain 1,
                       money := p.money -
                         chain_value chain (a.grid.chain_size chain) })) a with
  | none => rw [hab] at h; cases h
  | some game1 =>
    rw [hab] at h
    dsimp only at h
    have h1 : ∀ d, stockSum game1 d = stockSum a d := by
      refine foldlM_preserve_acquire
        (fun x y => ∀ d, stockSum y d = stockSum x d)
        (fun x d => rfl) ?_ _ ?_ buys a game1 hab
      · intro x y z ha hb d
        rw [hb d, ha d]
      · intro x i y hx d
        cases i with
        | None =>
          simp only [Option.some.injEq] at hx
          subst hx
          rfl
        | Chain chain =>
          dsimp only at hx
          cases hw : stocksWithdraw x.stocks chain 1 with
          | none => rw [hw] at hx; cases hx
          | some bank2 =>
            rw [hw] at hx
            exact stockSum_bank_to_player x pid chain 1 bank2 _ y hw
              (fun p => rfl) hx d
    cases htt : game1.player_take_tile pid with
    | none => rw [htt] at h; cases h
    | some game2 =>
      rw [htt] at h
      dsimp only at h
      cases hti : game2.player_trade_in_illegal_tiles pid with
      | none => rw [hti] at h; cases h
      | some game3 =>
        rw [hti] at h
        dsimp only at h
        have h2 := player_take_tile_stockSum game1 pid game2 htt c
        have h3 := trade_in_stockSum game2 pid game3 hti c
        split_ifs at h with hmt
        · simp only [Option.some.injEq] at h
          subst h
          rw [show stockSum { game3 with
              phase := Phase.AwaitingGameTerminationDecision } c =
              stockSum game3 c from rfl, h3, h2, h1 c]
        · unfold Acquire.move_to_next_player_who_can_play_a_tile at h
          have h4 := moveLoop_stockSum _ _ _ _ h c
          rw [h4, h3, h2, h1 c]

theorem applySelectChainForTiebreak_stockSum (a : Acquire) (chain : Chain)
    (b : Acquire) (h : a.applySelectChainForTiebreak chain = some b)
    (c : Chain) : stockSum b c = stockSum a c := by
  unfold Acquire.applySelectChainForTiebreak at h
  split at h
  next mpid tied mrem =>
    dsimp only at h
    split at h
    next hnil => cases h
    next first rest heq =>
      have h1 := provide_bonuses_stockSum _ _ _ h c
      rw [h1]
      rfl
  next hphase => cases h

theorem applyTerminate_stockSum (a : Acquire) (terminate : Bool) (b : Acquire)
    (h : a.applyTerminate terminate = some b) (c : Chain) :
    stockSum b c = stockSum a c := by
  unfold Acquire.applyTerminate at h
  dsimp only at h
  split_ifs at h with ht
  · have h1 := provide_final_bonuses_stockSum _ _ h c
    rw [h1]
    rfl
  · unfold Acquire.move_to_next_player_who_can_play_a_tile at h
    have h1 := moveLoop_stockSum _ _ _ _ h c
    rw [h1]
    rfl

/-- The stock movement of one merge decision: the player gives up
`sell + trade_in` defunct shares and receives `trade_in / 2` surviving
shares; the bank does the reverse.  Circulation is preserved for every
chain (also when the two chains coincide). -/
theorem stockSum_merge_transfer (a : Acquire) (mpid : PlayerId)
    (player : Player) (dc mc2 : Chain) (s t mny : Nat)
    (pstocks2 bank2 : Chain → Nat)
    (hp : a.players.get? mpid = some player)
    (hw1 : stocksWithdraw player.stocks dc (s + t) = some pstocks2)
    (hw2 : stocksWithdraw a.stocks mc2 (t / 2) = some bank2)
    (c : Chain) :
    stockSum ({ a with
      players := (a.players.set mpid
        { player with stocks := stocksDeposit pstocks2 mc2 (t / 2),
                      money := mny }),
      stocks := stocksDeposit bank2 dc (s + t) } : Acquire) c =
      stockSum a c := by
  obtain ⟨hle1, hps⟩ := stocksWithdraw_eq_some _ _ _ _ hw1
  obtain ⟨hle2, hbk⟩ := stocksWithdraw_eq_some _ _ _ _ hw2
  have hs := sum_map_set (fun r : Player => r.stocks c) a.players mpid
    ({ player with
        stocks := stocksDeposit pstocks2 mc2 (t / 2),
        money := mny }) player hp
  dsimp only at hs
  have hp2 : stocksDeposit pstocks2 mc2 (t / 2) c =
      pstocks2 c + (if c = mc2 then t / 2 else 0) := stocksDeposit_apply _ _ _ _
  have hS2 : stocksDeposit bank2 dc (s + t) c =
      bank2 c + (if c = dc then s + t else 0) := stocksDeposit_apply _ _ _ _
  have hpsc := hps c
  have hbkc := hbk c
  unfold stockSum
  dsimp only
  by_cases h1 : c = dc
  · subst h1
    rw [if_pos rfl] at hS2 hpsc
    by_cases h2 : c = mc2
    · subst h2
      rw [if_pos rfl] at hp2 hbkc
      omega
    · rw [if_neg h2] at hp2
      rw [if_neg h2] at hbkc
      omega
  · rw [if_neg h1] at hS2
    rw [if_neg h1] at hpsc
    by_cases h2 : c = mc2
    · subst h2
      rw [if_pos rfl] at hp2 hbkc
      omega
    · rw [if_neg h2] at hp2
      rw [if_neg h2] at hbkc
      omega

theorem applyDecideMerge_stockSum (a : Acquire) (apid : PlayerId)
    (decision : MergeDecision) (b : Acquire)
    (h : a.applyDecideMerge apid decision = some b) (c : Chain) :
    stockSum b c = stockSum a c := by
  unfold Acquire.applyDecideMerge at h
  split at h
  · rename_i mpid mphase mrem heq
    split_ifs at h with hne
    · cases mrem with
      | nil => cases h
      | cons mc rest =>
        dsimp only at h
        cases hp : a.players.get? mpid with
        | none => rw [hp] at h; cases h
        | some player =>
          rw [hp] at h
          dsimp only at h
          cases hw1 : stocksWithdraw player.stocks mc.defunct_chain
              (decision.sell + decision.trade_in) with
          | none => rw [hw1] at h; cases h
          | some pstocks2 =>
            rw [hw1] at h
            dsimp only at h
            cases hw2 : stocksWithdraw a.stocks mc.merging_chain
                (decision.trade_in / 2) with
            | none => rw [hw2] at h; cases h
            | some bank2 =>
              rw [hw2] at h
              dsimp only at h
              have hg2 := stockSum_merge_transfer a mpid player
                mc.defunct_chain mc.merging_chain decision.sell
                decision.trade_in
                (player.money + chain_value mc.defunct_chain
                  (a.grid.chain_size mc.defunct_chain) * decision.sell)
                pstocks2 bank2 hp hw1 hw2 c
              split at h
              next hnm => cases h
              next nmpid hnm =>
                cases hcnt : mc.num_remaining_players_to_merge with
                | none => rw [hcnt] at h; cases h
                | some cnt =>
                  rw [hcnt] at h
                  dsimp only at h
                  split_ifs at h with hz hrest
                  · split at h
                    next hppt => cases h
                    next ppt hppt =>
                      simp only [Option.some.injEq] at h
                      subst h
                      exact hg2
                  · simp only [Option.some.injEq] at h
                    subst h
                    exact hg2
                  · simp only [Option.some.injEq] at h
                    subst h
                    exact hg2
              next hnm =>
                split_ifs at h with hrest
                · split at h
                  next hppt => cases h
                  next ppt hppt =>
                    simp only [Option.some.injEq] at h
                    subst h
                    exact hg2
                · cases rest with
                  | nil => cases h
                  | cons nf nrest =>
                    dsimp only at h
                    have h3 := provide_bonuses_stockSum _ _ _ h c
                    exact h3.trans hg2
  · cases h

theorem apply_action_stockSum (a : Acquire) (act : GameAction) (b : Acquire)
    (h : a.apply_action act = some b) (c : Chain) :
    stockSum b c = stockSum a c := by
  unfold Acquire.apply_action at h
  dsimp only at h
  have hfin : ∀ g : Acquire, (if g.terminated = true then some g
      else some { g with step := g.step + 1 }) = some b →
      stockSum b c = stockSum g c := by
    intro g hg
    split_ifs at hg
    · simp only [Option.some.injEq] at hg
      subst hg
      rfl
    · simp only [Option.some.injEq] at hg
      subst hg
      rfl
  cases act with
  | PlaceTile pid tile =>
    dsimp only at h
    cases hx : a.applyPlaceTile pid tile with
    | none => rw [hx] at h; cases h
    | some g =>
      rw [hx] at h
      exact (hfin g h).trans (applyPlaceTile_stockSum a pid tile g hx c)
  | PurchaseStock pid buys =>
    dsimp only at h
    cases hx : a.applyPurchaseStock pid buys with
    | none => rw [hx] at h; cases h
    | some g =>
      rw [hx] at h
      exact (hfin g h).trans (applyPurchaseStock_stockSum a pid buys g hx c)
  | SelectChainToCreate pid chain =>
    dsimp only at h
    cases hx : a.applySelectChainToCreate pid chain with
    | none => rw [hx] at h; cases h
    | some g =>
      rw [hx] at h
      exact (hfin g h).trans
        (applySelectChainToCreate_stockSum a pid chain g hx c)
  | SelectChainForTiebreak pid chain =>
    dsimp only at h
    cases hx : a.applySelectChainForTiebreak chain with
    | none => rw [hx] at h; cases h
    | some g =>
      rw [hx] at h
      exact (hfin g h).trans (applySelectChainForTiebreak_stockSum a chain g hx c)
  | DecideMerge mpid decision =>
    dsimp only at h
    cases hx : a.applyDecideMerge mpid decision with
    | none => rw [hx] at h; cases h
    | some g =>
      rw [hx] at h
      exact (hfin g h).trans (applyDecideMerge_stockSum a mpid decision g hx c)
  | Terminate pid terminate =>
    dsimp only at h
    cases hx : a.applyTerminate terminate with
    | none => rw [hx] at h; cases h
    | some g =>
      rw [hx] at h
      exact (hfin g h).trans (applyTerminate_stockSum a terminate g hx c)

/-- The reachable states of the engine: a freshly dealt game (`Acquire::new`
on some permutation of the full tile set - the shuffle is the engine's only
randomness) followed by any number of engine-offered actions applied
successfully. -/
inductive Reachable (o : Options) : Acquire → Prop where
  | init (shuffled : List Tile) (hperm : shuffled.Perm (allTiles o)) :
      Reachable o (Acquire.new shuffled o)
  | step (a b : Acquire) (act : GameAction) (ha : Reachable o a)
      (hact : act ∈ a.actions) (happ : a.apply_action act = some b) :
      Reachable o b

theorem stockSum_new (shuffled : List Tile) (o : Options) (c : Chain) :
    stockSum (Acquire.new shuffled o) c = o.num_stock := by
  unfold stockSum Acquire.new
  dsimp only
  rw [List.map_map]
  have hz : ((List.range o.num_players).map
      ((fun p : Player => p.stocks c) ∘ (fun i =>
        ({ id := i,
           tiles := (shuffled.drop (i * o.num_tiles)).take o.num_tiles,
           stocks := fun _ => 0,
           money := o.starting_money } : Player)))).sum = 0 := by
    apply List.sum_eq_zero
    intro x hx
    rcases List.mem_map.mp hx with ⟨i, hi, hix⟩
    exact hix.symm
  rw [hz]
  omega

/-- C4: stock conservation.  For every reachable game state and every chain,
the bank holdings plus the sum of all players' holdings of that chain is at
most the issued total `num_stock` (25 under default options); internally,
every transition of `apply_action` (purchase, founding share, merge
sell/trade-in, bonuses) preserves the circulation count exactly. -/
theorem C4_stock_conservation (o : Options) (a : Acquire)
    (h : Reachable o a) (c : Chain) : stockSum a c ≤ o.num_stock := by
  have key : stockSum a c = o.num_stock := by
    induction h with
    | init shuffled hperm => exact stockSum_new shuffled o c
    | step x y act hx hact happ ih =>
      rw [apply_action_stockSum x act y happ c, ih]
  omega

/-- Witness for C4 at the freshly dealt default game (identity shuffle). -/
theorem C4_witness :
    stockSum (Acquire.new (allTiles defaultOptions) defaultOptions)
      Chain.Tower ≤ defaultOptions.num_stock :=
  C4_stock_conservation defaultOptions _
    (Reachable.init (allTiles defaultOptions) (List.Perm.refl _)) Chain.Tower

theorem tradeFilterLoop_length_le (g : Grid) :
    ∀ (ts kept : List Tile), tradeFilterLoop g ts = some kept →
      kept.length ≤ ts.length := by
  intro ts
  induction ts with
  | nil =>
    intro kept h
    simp only [tradeFilterLoop, Option.some.injEq] at h
    subst h
    simp
  | cons t ts ih =>
    intro kept h
    unfold tradeFilterLoop at h
    cases hget : g.get t.pt with
    | Empty l =>
      rw [hget] at h
      cases l with
      | PermanentIllegal =>
        dsimp only at h
        have := ih kept h
        simp only [List.length_cons]
        omega
      | Legal =>
        dsimp only at h
        cases hrest : tradeFilterLoop g ts with
        | none => rw [hrest] at h; cases h
        | some k =>
          rw [hrest] at h
          simp only [Option.map_some', Option.some.injEq] at h
          subst h
          have := ih k hrest
          simp only [List.length_cons]
          omega
      | TemporarilyIllegal =>
        dsimp only at h
        cases hrest : tradeFilterLoop g ts with
        | none => rw [hrest] at h; cases h
        | some k =>
          rw [hrest] at h
          simp only [Option.map_some', Option.some.injEq] at h
          subst h
          have := ih k hrest
          simp only [List.length_cons]
          omega
    | NoChain => rw [hget] at h; cases h
    | Limbo => rw [hget] at h; cases h
    | Chain c => rw [hget] at h; cases h

theorem findIdx_lt_length {α : Type} (p : α → Bool) :
    ∀ (l : List α) (s i : Nat), List.findIdx? p l s = some i →
      i < s + l.length := by
  intro l
  induction l with
  | nil => intro s i h; simp [List.findIdx?] at h
  | cons a l ih =>
    intro s i h
    rw [List.findIdx?_cons] at h
    split_ifs at h with hpa
    · simp only [Option.some.injEq] at h
      subst h
      simp only [List.length_cons]
      omega
    · have := ih (s + 1) i h
      simp only [List.length_cons]
      omega

theorem occFlag_le_one (s : Slot) : occFlag s ≤ 1 := by
  unfold occFlag
  split_ifs <;> omega

theorem occFlag_of_occupied (s : Slot) (h : isOccupied s = true) :
    occFlag s = 1 := by
  simp [occFlag, h]

/-- `place` keeps the key set duplicate-free and adds at most one occupied
slot (the placed tile itself; all other writes preserve occupancy). -/
theorem place_occ (g : Grid) (t : Tile) (hnd : keysNodup g) :
    ∀ r g2, g.place t = some (r, g2) →
      keysNodup g2 ∧ occupiedCount g2 ≤ occupiedCount g + 1 := by
  intro r g2 hpl
  have hmain := place_preserve
    (fun h => keysNodup h ∧
      occupiedCount h + (1 - occFlag (h.get t.pt)) ≤ occupiedCount g + 1)
    g t ⟨hnd, by omega⟩ ?_ ?_ ?_ ?_ r g2 hpl
  · exact ⟨hmain.1, by omega⟩
  · intro s hcond
    refine ⟨keysNodup_set_slot g t.pt s hnd, ?_⟩
    have hocc := occupiedCount_set_slot g t.pt s hnd
    have h1 := occFlag_le_one s
    have h2 := occFlag_le_one (g.get t.pt)
    rw [get_set_slot, if_pos rfl]
    omega
  · intro h pt chain hocc hP
    obtain ⟨hnd2, hle⟩ := hP
    refine ⟨keysNodup_set_slot h pt _ hnd2, ?_⟩
    have hset := occupiedCount_set_slot h pt (Slot.Chain chain) hnd2
    have h1 := occFlag_of_occupied _ hocc
    have h2 : occFlag (Slot.Chain chain) = 1 := rfl
    rw [get_set_slot]
    by_cases hpt : t.pt = pt
    · rw [if_pos hpt]
      rw [hpt] at hle
      omega
    · rw [if_neg hpt]
      omega
  · intro h pt l l2 hget hlp hP
    obtain ⟨hnd2, hle⟩ := hP
    refine ⟨keysNodup_set_slot h pt _ hnd2, ?_⟩
    have hset := occupiedCount_set_slot h pt (Slot.Empty l2) hnd2
    have h1 : occFlag (h.get pt) = 0 := by rw [hget]; rfl
    have h2 : occFlag (Slot.Empty l2) = 0 := rfl
    rw [get_set_slot]
    by_cases hpt : t.pt = pt
    · rw [if_pos hpt]
      rw [hpt, hget] at hle
      have h3 : occFlag (Slot.Empty l) = 0 := rfl
      omega
    · rw [if_neg hpt]
      omega
  · intro h p hP
    exact hP

/-- `fill_chain` keeps the key set duplicate-free and never changes the
number of occupied slots (it only recolours occupied slots and rewrites
empty-slot legality). -/
theorem fill_chain_occ (g : Grid) (pt : Point) (chain : Chain)
    (hnd : keysNodup g) :
    keysNodup (g.fill_chain pt chain) ∧
      occupiedCount (g.fill_chain pt chain) = occupiedCount g := by
  refine fill_chain_preserve
    (fun h => keysNodup h ∧ occupiedCount h = occupiedCount g) chain
    ?_ ?_ g pt ⟨hnd, rfl⟩
  · intro h pt2 hocc hP
    obtain ⟨hnd2, heq⟩ := hP
    refine ⟨keysNodup_set_slot h pt2 _ hnd2, ?_⟩
    have hset := occupiedCount_set_slot h pt2 (Slot.Chain chain) hnd2
    have h1 := occFlag_of_occupied _ hocc
    have h2 : occFlag (Slot.Chain chain) = 1 := rfl
    omega
  · intro h pt2 l l2 hget hlp hP
    obtain ⟨hnd2, heq⟩ := hP
    refine ⟨keysNodup_set_slot h pt2 _ hnd2, ?_⟩
    have hset := occupiedCount_set_slot h pt2 (Slot.Empty l2) hnd2
    have h1 : occFlag (h.get pt2) = 0 := by rw [hget]; rfl
    have h2 : occFlag (Slot.Empty l2) = 0 := rfl
    omega

theorem updatePlayer_totalTiles (a : Acquire) (pid : PlayerId)
    (f : Player → Player) (b : Acquire) (h : a.updatePlayer pid f = some b)
    (hf : ∀ p, (f p).tiles = p.tiles) :
    totalTiles b = totalTiles a ∧ b.grid = a.grid := by
  obtain ⟨p, hp, rfl⟩ := updatePlayer_eq a pid f b h
  have hs := handSum_set_player a pid p (f p) hp
  rw [hf p] at hs
  refine ⟨?_, rfl⟩
  unfold totalTiles
  dsimp only
  omega

theorem player_take_tile_totalTiles (a : Acquire) (pid : PlayerId)
    (b : Acquire) (h : a.player_take_tile pid = some b) :
    totalTiles b = totalTiles a ∧ b.grid = a.grid := by
  unfold Acquire.player_take_tile at h
  split_ifs at h with he
  · simp only [Option.some.injEq] at h
    subst h
    exact ⟨rfl, rfl⟩
  · cases hl : a.tiles.getLast? with
    | none =>
      rw [hl] at h
      simp only [Option.some.injEq] at h
      subst h
      exact ⟨rfl, rfl⟩
    | some tile =>
      rw [hl] at h
      obtain ⟨p, hp, rfl⟩ := updatePlayer_eq _ pid _ b h
      have hs := handSum_set_player
        ({ a with tiles := a.tiles.dropLast } : Acquire) pid p
        ({ p with tiles := p.tiles ++ [tile] }) hp
      dsimp only at hs
      have hlen : a.tiles.length ≠ 0 := by
        intro h0
        rw [List.length_eq_zero] at h0
        rw [h0] at he
        exact he rfl
      refine ⟨?_, rfl⟩
      unfold totalTiles handSum
      unfold handSum at hs
      dsimp only
      simp only [List.length_dropLast, List.length_append,
        List.length_cons, List.length_nil] at *
      omega

theorem trade_in_totalTiles (a : Acquire) (pid : PlayerId) (b : Acquire)
    (h : a.player_trade_in_illegal_tiles pid = some b) :
    totalTiles b ≤ totalTiles a ∧ b.grid = a.grid := by
  obtain ⟨p, kept, hp, hk, rfl⟩ := trade_in_eq a pid b h
  have hkle := tradeFilterLoop_length_le a.grid p.tiles kept hk
  have hs := sum_map_set (fun r : Player => r.tiles.length) a.players pid
    ({ p with tiles := kept ++ (a.tiles.drop
        (a.tiles.length - min (6 - kept.length) a.tiles.length)).reverse })
    p hp
  dsimp only at hs
  have hd : min (6 - kept.length) a.tiles.length ≤ a.tiles.length :=
    Nat.min_le_right _ _
  refine ⟨?_, rfl⟩
  unfold totalTiles handSum
  dsimp only
  simp only [List.length_take, List.length_append, List.length_reverse,
    List.length_drop] at *
  omega

theorem provide_bonuses_totalTiles (a : Acquire) (chain : Chain) (b : Acquire)
    (h : a.provide_bonuses chain = some b) :
    totalTiles b = totalTiles a ∧ b.grid = a.grid := by
  refine foldlM_preserve_acquire
    (fun x y => totalTiles y = totalTiles x ∧ y.grid = x.grid)
    (fun x => ⟨rfl, rfl⟩) ?_ _ ?_ _ a b h
  · rintro x y z ⟨h1, h2⟩ ⟨g1, g2⟩
    exact ⟨g1.trans h1, g2.trans h2⟩
  · intro x i y hx
    exact updatePlayer_totalTiles x i.1 _ y hx (fun p => rfl)

theorem provide_final_bonuses_totalTiles (a b : Acquire)
    (h : a.provide_final_bonuses = some b) :
    totalTiles b = totalTiles a ∧ b.grid = a.grid := by
  refine foldlM_preserve_acquire
    (fun x y => totalTiles y = totalTiles x ∧ y.grid = x.grid)
    (fun x => ⟨rfl, rfl⟩) ?_ _ ?_ _ a b h
  · rintro x y z ⟨h1, h2⟩ ⟨g1, g2⟩
    exact ⟨g1.trans h1, g2.trans h2⟩
  · intro x i y hx
    exact provide_bonuses_totalTiles x i y hx

theorem moveLoop_totalTiles (fuel : Nat) :
    ∀ (count : Nat) (a g2 : Acquire), moveLoop fuel a count = some g2 →
    totalTiles g2 ≤ totalTiles a ∧ g2.grid = a.grid := by
  induction fuel with
  | zero => intro count a g2 h; simp [moveLoop] at h
  | succ fuel ih =>
    intro count a g2 h
    unfold moveLoop at h
    cases hv : a.advanceOne.player_has_any_valid_tiles
        a.advanceOne.current_player_id with
    | none => rw [hv] at h; cases h
    | some bt =>
      rw [hv] at h
      cases bt with
      | true =>
        dsimp only at h
        simp only [Option.some.injEq] at h
        subst h
        exact ⟨Nat.le_refl _, rfl⟩
      | false =>
        dsimp only at h
        cases ht : a.advanceOne.player_trade_in_illegal_tiles
            a.advanceOne.current_player_id with
        | none => rw [ht] at h; cases h
        | some a2 =>
          rw [ht] at h
          dsimp only at h
          obtain ⟨ht1, ht2⟩ := trade_in_totalTiles _ _ _ ht
          split_ifs at h with hcount
          · obtain ⟨hf1, hf2⟩ := provide_final_bonuses_totalTiles _ _ h
            exact ⟨le_trans (le_of_eq hf1) ht1, hf2.trans ht2⟩
          · obtain ⟨hi1, hi2⟩ := ih _ _ _ h
            exact ⟨le_trans hi1 ht1, hi2.trans ht2⟩

theorem applyPlaceTile_tiles (a : Acquire) (pid : PlayerId) (tile : Tile)
    (b : Acquire) (h : a.applyPlaceTile pid tile = some b)
    (hnd : keysNodup a.grid) :
    keysNodup b.grid ∧ totalTiles b ≤ totalTiles a := by
  unfold Acquire.applyPlaceTile at h
  cases hp : a.players.get? pid with
  | none => rw [hp] at h; cases h
  | some player =>
    rw [hp] at h
    dsimp only at h
    cases hidx : player.tiles.findIdx? (fun t => t = tile) with
    | none => rw [hidx] at h; cases h
    | some tidx =>
      rw [hidx] at h
      dsimp only at h
      have htidx := findIdx_lt_length _ player.tiles 0 tidx hidx
      have hers : (player.tiles.eraseIdx tidx).length =
          player.tiles.length - 1 := by
        rw [List.length_eraseIdx]
        simp only [if_pos (by omega : tidx < player.tiles.length)]
      have hs := sum_map_set (fun r : Player => r.tiles.length) a.players pid
        ({ player with tiles := player.tiles.eraseIdx tidx }) player hp
      dsimp only at hs
      cases hpl : a.grid.place tile with
      | none => rw [hpl] at h; cases h
      | some rg =>
        rw [hpl] at h
        obtain ⟨result, grid2⟩ := rg
        obtain ⟨hnd2, hocc2⟩ := place_occ a.grid tile hnd result grid2 hpl
        have hg2 : totalTiles ({ a with
            players := (a.players.set pid
              { player with tiles := player.tiles.eraseIdx tidx }),
            grid := grid2 } : Acquire) ≤ totalTiles a := by
          unfold totalTiles handSum
          dsimp only
          omega
        dsimp only at h
        cases result with
        | Proceed =>
          dsimp only at h
          split_ifs at h with hemp
          · split at h
            next htt => cases h
            next game4 htt =>
              unfold Acquire.move_to_next_player_who_can_play_a_tile at h
              obtain ⟨ht1, ht2⟩ := player_take_tile_totalTiles _ pid game4 htt
              obtain ⟨hm1, hm2⟩ := moveLoop_totalTiles _ _ _ _ h
              constructor
              · rw [hm2, ht2]
                exact hnd2
              · exact le_trans hm1 (le_trans (le_of_eq ht1) hg2)
          · simp only [Option.some.injEq] at h
            subst h
            exact ⟨hnd2, hg2⟩
        | SelectAvailableChain =>
          simp only [Option.some.injEq] at h
          subst h
          exact ⟨hnd2, hg2⟩
        | DecideTieBreak tied =>
          simp only [Option.some.injEq] at h
          subst h
          exact ⟨hnd2, hg2⟩
        | Merge mergers =>
          dsimp only at h
          split at h
          next heq =>
            simp only [Option.some.injEq] at h
            subst h
            exact ⟨hnd2, hg2⟩
          next first rest heq =>
            split at h
            next hnm => cases h
            next hnm =>
              simp only [Option.some.injEq] at h
              subst h
              exact ⟨hnd2, hg2⟩
            next nmpid hnm =>
              split at h
              next hpb => cases h
              next game3 hpb =>
                simp only [Option.some.injEq] at h
                subst h
                obtain ⟨hb1, hb2⟩ := provide_bonuses_totalTiles _ _ _ hpb
                constructor
                · rw [hb2]
                  exact hnd2
                · exact le_trans (le_of_eq hb1) hg2
        | Illegal perm => cases h

theorem applySelectChainToCreate_tiles (a : Acquire) (pid : PlayerId)
    (chain : Chain) (b : Acquire)
    (h : a.applySelectChainToCreate pid chain = some b)
    (hnd : keysNodup a.grid) :
    keysNodup b.grid ∧ totalTiles b ≤ totalTiles a := by
  unfold Acquire.applySelectChainToCreate at h
  cases hpt : a.grid.previously_placed_tile_pt with
  | none => rw [hpt] at h; cases h
  | some pt =>
    rw [hpt] at h
    dsimp only at h
    obtain ⟨hfc1, hfc2⟩ := fill_chain_occ a.grid pt chain hnd
    have hg1 : totalTiles ({ a with
        grid := (a.grid.fill_chain pt chain),
        phase := Phase.AwaitingStockPurchase } : Acquire) = totalTiles a := by
      unfold totalTiles handSum
      dsimp only
      omega
    cases hw : stocksWithdraw a.stocks chain 1 with
    | some bank2 =>
      rw [hw] at h
      obtain ⟨ht1, ht2⟩ := updatePlayer_totalTiles _ pid _ b h (fun p => rfl)
      constructor
      · rw [ht2]
        exact hfc1
      · exact le_of_eq (ht1.trans hg1)
    | none =>
      rw [hw] at h
      simp only [Option.some.injEq] at h
      subst h
      exact ⟨hfc1, le_of_eq hg1⟩

theorem applyPurchaseStock_tiles (a : Acquire) (pid : PlayerId)
    (buys : List BuyOption) (b : Acquire)
    (h : a.applyPurchaseStock pid buys = some b)
    (hnd : keysNodup a.grid) :
    keysNodup b.grid ∧ totalTiles b ≤ totalTiles a := by
  unfold Acquire.applyPurchaseStock at h
  dsimp only at h
  cases hab : buys.foldlM (fun (g : Acquire) buy =>
      match buy with
      | BuyOption.None => some g
      | BuyOption.Chain chain =>
        match stocksWithdraw g.stocks chain 1 with
        | none => none
        | some bank2 =>
          ({ g with stocks := bank2 } : Acquire).updatePlayer pid
            (fun p =>
              { p with stocks := stocksDeposit p.stocks chain 1,
                       money := p.money -
                         chain_value chain (a.grid.chain_size chain) })) a with
  | none => rw [hab] at h; cases h
  | some game1 =>
    rw [hab] at h
    dsimp only at h
    obtain ⟨h1t, h1g⟩ : totalTiles game1 = totalTiles a ∧ game1.grid = a.grid := by
      refine foldlM_preserve_acquire
        (fun x y => totalTiles y = totalTiles x ∧ y.grid = x.grid)
        (fun x => ⟨rfl, rfl⟩) ?_ _ ?_ buys a game1 hab
      · rintro x y z ⟨ha1, ha2⟩ ⟨hb1, hb2⟩
        exact ⟨hb1.trans ha1, hb2.trans ha2⟩
      · intro x i y hx
        cases i with
        | None =>
          simp only [Option.some.injEq] at hx
          subst hx
          exact ⟨rfl, rfl⟩
        | Chain chain =>
          dsimp only at hx
          cases hw : stocksWithdraw x.stocks chain 1 with
          | none => rw [hw] at hx; cases hx
          | some bank2 =>
            rw [hw] at hx
            dsimp only at hx
            exact updatePlayer_totalTiles ({ x with stocks := bank2 } : Acquire)
              pid _ y hx (fun p => rfl)
    cases htt : game1.player_take_tile pid with
    | none => rw [htt] at h; cases h
    | some game2 =>
      rw [htt] at h
      dsimp only at h
      cases hti : game2.player_trade_in_illegal_tiles pid with
      | none => rw [hti] at h; cases h
      | some game3 =>
        rw [hti] at h
        dsimp only at h
        obtain ⟨h2t, h2g⟩ := player_take_tile_totalTiles game1 pid game2 htt
        obtain ⟨h3t, h3g⟩ := trade_in_totalTiles game2 pid game3 hti
        have hndg3 : keysNodup game3.grid := by
          rw [h3g, h2g, h1g]
          exact hnd
        split_ifs at h with hmt
        · simp only [Option.some.injEq] at h
          subst h
          exact ⟨hndg3, le_trans h3t (le_of_eq (h2t.trans h1t))⟩
        · unfold Acquire.move_to_next_player_who_can_play_a_tile at h
          obtain ⟨hm1, hm2⟩ := moveLoop_totalTiles _ _ _ _ h
          refine ⟨?_, ?_⟩
          · rw [hm2]
            exact hndg3
          · exact le_trans hm1 (le_trans h3t (le_of_eq (h2t.trans h1t)))

theorem applySelectChainForTiebreak_tiles (a : Acquire) (chain : Chain)
    (b : Acquire) (h : a.applySelectChainForTiebreak chain = some b)
    (hnd : keysNodup a.grid) :
    keysNodup b.grid ∧ totalTiles b ≤ totalTiles a := by
  unfold Acquire.applySelectChainForTiebreak at h
  split at h
  next mpid tied mrem =>
    dsimp only at h
    split at h
    next hnil => cases h
    next first rest heq =>
      obtain ⟨hb1, hb2⟩ := provide_bonuses_totalTiles _ _ _ h
      constructor
      · rw [hb2]
        exact hnd
      · exact le_of_eq hb1
  next hphase => cases h

theorem applyTerminate_tiles (a : Acquire) (terminate : Bool) (b : Acquire)
    (h : a.applyTerminate terminate = some b) (hnd : keysNodup a.grid) :
    keysNodup b.grid ∧ totalTiles b ≤ totalTiles a := by
  unfold Acquire.applyTerminate at h
  dsimp only at h
  split_ifs at h with ht
  · obtain ⟨hb1, hb2⟩ := provide_final_bonuses_totalTiles _ _ h
    constructor
    · rw [hb2]
      exact hnd
    · exact le_of_eq hb1
  · unfold Acquire.move_to_next_player_who_can_play_a_tile at h
    obtain ⟨hm1, hm2⟩ := moveLoop_totalTiles _ _ _ _ h
    constructor
    · rw [hm2]
      exact hnd
    · exact hm1

theorem applyDecideMerge_tiles (a : Acquire) (apid : PlayerId)
    (decision : MergeDecision) (b : Acquire)
    (h : a.applyDecideMerge apid decision = some b)
    (hnd : keysNodup a.grid) :
    keysNodup b.grid ∧ totalTiles b ≤ totalTiles a := by
  unfold Acquire.applyDecideMerge at h
  split at h
  · rename_i mpid mphase mrem heq
    split_ifs at h with hne
    · cases mrem with
      | nil => cases h
      | cons mc rest =>
        dsimp only at h
        cases hp : a.players.get? mpid with
        | none => rw [hp] at h; cases h
        | some player =>
          rw [hp] at h
          dsimp only at h
          cases hw1 : stocksWithdraw player.stocks mc.defunct_chain
              (decision.sell + decision.trade_in) with
          | none => rw [hw1] at h; cases h
          | some pstocks2 =>
            rw [hw1] at h
            dsimp only at h
            cases hw2 : stocksWithdraw a.stocks mc.merging_chain
                (decision.trade_in / 2) with
            | none => rw [hw2] at h; cases h
            | some bank2 =>
              rw [hw2] at h
              dsimp only at h
              have hs := sum_map_set (fun r : Player => r.tiles.length)
                a.players mpid
                ({ player with
                    stocks := stocksDeposit pstocks2 mc.merging_chain
                      (decision.trade_in / 2),
                    money := player.money +
                      chain_value mc.defunct_chain
                        (a.grid.chain_size mc.defunct_chain) *
                        decision.sell }) player hp
              dsimp only at hs
              split at h
              next hnm => cases h
              next nmpid hnm =>
                cases hcnt : mc.num_remaining_players_to_merge with
                | none => rw [hcnt] at h; cases h
                | some cnt =>
                  rw [hcnt] at h
                  dsimp only at h
                  split_ifs at h with hz hrest
                  · split at h
                    next hppt => cases h
                    next ppt hppt =>
                      simp only [Option.some.injEq] at h
                      subst h
                      obtain ⟨hf1, hf2⟩ :=
                        fill_chain_occ a.grid ppt mc.merging_chain hnd
                      refine ⟨hf1, ?_⟩
                      unfold totalTiles handSum
                      dsimp only
                      omega
                  · simp only [Option.some.injEq] at h
                    subst h
                    refine ⟨hnd, ?_⟩
                    unfold totalTiles handSum
                    dsimp only
                    omega
                  · simp only [Option.some.injEq] at h
                    subst h
                    refine ⟨hnd, ?_⟩
                    unfold totalTiles handSum
                    dsimp only
                    omega
              next hnm =>
                split_ifs at h with hrest
                · split at h
                  next hppt => cases h
                  next ppt hppt =>
                    simp only [Option.some.injEq] at h
                    subst h
                    obtain ⟨hf1, hf2⟩ :=
                      fill_chain_occ a.grid ppt mc.merging_chain hnd
                    refine ⟨hf1, ?_⟩
                    unfold totalTiles handSum
                    dsimp only
                    omega
                · cases rest with
                  | nil => cases h
                  | cons nf nrest =>
                    dsimp only at h
                    obtain ⟨hb1, hb2⟩ := provide_bonuses_totalTiles _ _ _ h
                    constructor
                    · rw [hb2]
                      exact hnd
                    · rw [hb1]
                      unfold totalTiles handSum
                      dsimp only
                      omega
  · cases h

theorem apply_action_tiles (a : Acquire) (act : GameAction) (b : Acquire)
    (h : a.apply_action act = some b) (hnd : keysNodup a.grid) :
    keysNodup b.grid ∧ totalTiles b ≤ totalTiles a := by
  unfold Acquire.apply_action at h
  dsimp only at h
  have hfin : ∀ g : Acquire, (if g.terminated = true then some g
      else some { g with step := g.step + 1 }) = some b →
      keysNodup b.grid = keysNodup g.grid ∧ totalTiles b = totalTiles g := by
    intro g hg
    split_ifs at hg
    · simp only [Option.some.injEq] at hg
      subst hg
      exact ⟨rfl, rfl⟩
    · simp only [Option.some.injEq] at hg
      subst hg
      exact ⟨rfl, rfl⟩
  cases act with
  | PlaceTile pid tile =>
    dsimp only at h
    cases hx : a.applyPlaceTile pid tile with
    | none => rw [hx] at h; cases h
    | some g =>
      rw [hx] at h
      obtain ⟨hk, ht⟩ := applyPlaceTile_tiles a pid tile g hx hnd
      obtain ⟨hf1, hf2⟩ := hfin g h
      exact ⟨hf1.symm ▸ hk, le_trans (le_of_eq hf2) ht⟩
  | PurchaseStock pid buys =>
    dsimp only at h
    cases hx : a.applyPurchaseStock pid buys with
    | none => rw [hx] at h; cases h
    | some g =>
      rw [hx] at h
      obtain ⟨hk, ht⟩ := applyPurchaseStock_tiles a pid buys g hx hnd
      obtain ⟨hf1, hf2⟩ := hfin g h
      exact ⟨hf1.symm ▸ hk, le_trans (le_of_eq hf2) ht⟩
  | SelectChainToCreate pid chain =>
    dsimp only at h
    cases hx : a.applySelectChainToCreate pid chain with
    | none => rw [hx] at h; cases h
    | some g =>
      rw [hx] at h
      obtain ⟨hk, ht⟩ := applySelectChainToCreate_tiles a pid chain g hx hnd
      obtain ⟨hf1, hf2⟩ := hfin g h
      exact ⟨hf1.symm ▸ hk, le_trans (le_of_eq hf2) ht⟩
  | SelectChainForTiebreak pid chain =>
    dsimp only at h
    cases hx : a.applySelectChainForTiebreak chain with
    | none => rw [hx] at h; cases h
    | some g =>
      rw [hx] at h
      obtain ⟨hk, ht⟩ := applySelectChainForTiebreak_tiles a chain g hx hnd
      obtain ⟨hf1, hf2⟩ := hfin g h
      exact ⟨hf1.symm ▸ hk, le_trans (le_of_eq hf2) ht⟩
  | DecideMerge mpid decision =>
    dsimp only at h
    cases hx : a.applyDecideMerge mpid decision with
    | none => rw [hx] at h; cases h
    | some g =>
      rw [hx] at h
      obtain ⟨hk, ht⟩ := applyDecideMerge_tiles a mpid decision g hx hnd
      obtain ⟨hf1, hf2⟩ := hfin g h
      exact ⟨hf1.symm ▸ hk, le_trans (le_of_eq hf2) ht⟩
  | Terminate pid terminate =>
    dsimp only at h
    cases hx : a.applyTerminate terminate with
    | none => rw [hx] at h; cases h
    | some g =>
      rw [hx] at h
      obtain ⟨hk, ht⟩ := applyTerminate_tiles a terminate g hx hnd
      obtain ⟨hf1, hf2⟩ := hfin g h
      exact ⟨hf1.symm ▸ hk, le_trans (le_of_eq hf2) ht⟩

/-- The dealt hands and the remaining bag partition the shuffled deck:
`k`-tile segments for each of `n` players plus the tail. -/
theorem segsSum {α : Type} (k : Nat) :
    ∀ (n : Nat) (l : List α),
    ((List.range n).map (fun i => ((l.drop (i * k)).take k).length)).sum +
      (l.drop (n * k)).length = l.length := by
  intro n
  induction n with
  | zero => intro l; simp
  | succ n ih =>
    intro l
    rw [List.range_succ_eq_map]
    simp only [List.map_cons, List.sum_cons, List.map_map]
    have hfun : ((fun i => ((l.drop (i * k)).take k).length) ∘ Nat.succ) =
        (fun i => (((l.drop k).drop (i * k)).take k).length) := by
      funext i
      simp only [Function.comp]
      rw [Nat.succ_mul, Nat.add_comm, ← List.drop_drop]
    rw [hfun]
    have ihk := ih (l.drop k)
    have h1 : ((l.drop k).drop (n * k)).length = (l.drop ((n + 1) * k)).length := by
      rw [List.drop_drop, Nat.succ_mul, Nat.add_comm]
    simp only [List.length_take, List.length_drop] at *
    omega

theorem totalTiles_new (shuffled : List Tile) (o : Options) :
    totalTiles (Acquire.new shuffled o) = shuffled.length := by
  have hseg := segsSum o.num_tiles o.num_players shuffled
  unfold totalTiles handSum Acquire.new
  dsimp only
  rw [List.map_map]
  have hfun : ((fun p : Player => p.tiles.length) ∘ (fun i =>
      ({ id := i,
         tiles := (shuffled.drop (i * o.num_tiles)).take o.num_tiles,
         stocks := fun _ => 0,
         money := o.starting_money } : Player))) =
      (fun i => ((shuffled.drop (i * o.num_tiles)).take o.num_tiles).length) := by
    funext i
    rfl
  rw [hfun]
  have hocc : occupiedCount (Grid.new o.grid_width o.grid_height) = 0 := rfl
  omega

theorem sum_map_const_range (w : Nat) :
    ∀ n, ((List.range n).map (fun _ => w)).sum = n * w := by
  intro n
  induction n with
  | zero => simp
  | succ n ih =>
    rw [List.range_succ, List.map_append, List.sum_append]
    simp only [List.map_cons, List.map_nil, List.sum_cons, List.sum_nil]
    rw [ih, Nat.succ_mul]
    omega

theorem allTiles_length (o : Options) :
    (allTiles o).length = o.grid_width * o.grid_height := by
  have key : ∀ (f : Nat → List Tile), (∀ y, (f y).length = o.grid_width) →
      ((List.range o.grid_height).map (List.length ∘ f)).sum =
        o.grid_height * o.grid_width := by
    intro f hf
    have hmap : (List.range o.grid_height).map (List.length ∘ f) =
        (List.range o.grid_height).map (fun _ => o.grid_width) := by
      apply List.map_congr_left
      intro y hy
      exact hf y
    rw [hmap, sum_map_const_range]
  unfold allTiles
  simp only [List.length_flatMap]
  refine Eq.trans ?_ (Nat.mul_comm o.grid_height o.grid_width)
  refine key _ ?_
  intro y
  simp [List.length_flatMap]
  have key2 : ∀ (g : Nat → List Int), (∀ a, (g a).length = 1) →
      ((List.range o.grid_width).map (List.length ∘ g)).sum = o.grid_width := by
    intro g hg
    have hmap : (List.range o.grid_width).map (List.length ∘ g) =
        (List.range o.grid_width).map (fun _ => 1) := by
      apply List.map_congr_left
      intro a ha
      exact hg a
    rw [hmap, sum_map_const_range]
    omega
  exact key2 _ (fun a => rfl)

theorem keysNodup_new (w hgt : Nat) : keysNodup (Grid.new w hgt) := by
  simp [keysNodup, Grid.new]

/-- C3 (amended): tile conservation holds only as an upper bound.  For every
reachable game state, the draw bag plus all hands plus the occupied grid
slots total at most `grid_width * grid_height`; the count can drop below the
board size because `player_trade_in_illegal_tiles` discards permanently
illegal tiles without returning them anywhere. -/
theorem C3_tile_conservation_amended (o : Options) (a : Acquire)
    (h : Reachable o a) :
    totalTiles a ≤ o.grid_width * o.grid_height := by
  have key : keysNodup a.grid ∧ totalTiles a ≤ o.grid_width * o.grid_height := by
    induction h with
    | init shuffled hperm =>
      constructor
      · exact keysNodup_new o.grid_width o.grid_height
      · rw [totalTiles_new shuffled o, hperm.length_eq, allTiles_length]
    | step x y act hx hact happ ih =>
      obtain ⟨hk, ht⟩ := apply_action_tiles x act y happ ih.1
      exact ⟨hk, le_trans ht ih.2⟩
  exact key.2

/-- Witness for the amended C3 at the freshly dealt default game. -/
theorem C3_witness :
    totalTiles (Acquire.new (allTiles defaultOptions) defaultOptions) ≤
      defaultOptions.grid_width * defaultOptions.grid_height :=
  C3_tile_conservation_amended defaultOptions _
    (Reachable.init (allTiles defaultOptions) (List.Perm.refl _))

/-- Replay a list of actions, requiring each to be offered by `actions` and
to apply successfully; used to exhibit concrete reachable states. -/
def runSeq : Acquire → List GameAction → Option Acquire
  | a, [] => some a
  | a, act :: rest =>
    if act ∈ a.actions then
      match a.apply_action act with
      | none => none
      | some b => runSeq b rest
    else none

theorem reachable_runSeq (o : Options) :
    ∀ (acts : List GameAction) (a b : Acquire), Reachable o a →
      runSeq a acts = some b → Reachable o b := by
  intro acts
  induction acts with
  | nil =>
    intro a b ha h
    unfold runSeq at h
    simp only [Option.some.injEq] at h
    subst h
    exact ha
  | cons act rest ih =>
    intro a b ha h
    unfold runSeq at h
    split_ifs at h with hmem
    · cases hap : a.apply_action act with
      | none => rw [hap] at h; cases h
      | some a2 =>
        rw [hap] at h
        exact ih a2 b (Reachable.step a a2 act ha hmem hap) h

def tlAt (x y : Int) : Tile := ⟨⟨x, y⟩⟩

/-- Two players on a 12x3 board (rows A, B, C): small enough to replay a
full game prefix inside the kernel, while the standard chain-safety rules
are unchanged. -/
def c3Opts : Options :=
  { num_players := 2, num_tiles := 6, grid_width := 12, grid_height := 3,
    num_stock := 25, starting_money := 6000 }

/-- A full deck for `c3Opts` (a permutation of its 36 tiles).  Player 0 is
dealt the odd-column row-A tiles, player 1 the even ones; the bag is drawn
from the back: first C1..C12, then B11, then the remaining B tiles. -/
def c3Deck : List Tile :=
  [tlAt 0 0, tlAt 2 0, tlAt 4 0, tlAt 6 0, tlAt 8 0, tlAt 10 0,
   tlAt 1 0, tlAt 3 0, tlAt 5 0, tlAt 7 0, tlAt 9 0, tlAt 11 0,
   tlAt 11 1,
   tlAt 9 1, tlAt 8 1, tlAt 7 1, tlAt 6 1, tlAt 5 1,
   tlAt 4 1, tlAt 3 1, tlAt 2 1, tlAt 1 1, tlAt 0 1,
   tlAt 10 1,
   tlAt 11 2, tlAt 10 2, tlAt 9 2, tlAt 8 2, tlAt 7 2, tlAt 6 2,
   tlAt 5 2, tlAt 4 2, tlAt 3 2, tlAt 2 2, tlAt 1 2, tlAt 0 2]

/-- The buy-nothing purchase the engine always offers. -/
def noBuy : List BuyOption := [BuyOption.None, BuyOption.None, BuyOption.None]

/-- 23 turns of legal play under `c3Opts` with the `c3Deck` shuffle: the two
players lay out all of row A (Tower, size 12) and C1..C11 (Luxor, size 11).
Placing C11 makes both chains safe, which marks the empty slot B11
permanently illegal; player 0 has drawn the B11 tile earlier, so the final
purchase's automatic trade-in discards it from the game. -/
def c3Actions : List GameAction :=
  [GameAction.PlaceTile 0 (tlAt 0 0),
   GameAction.PlaceTile 1 (tlAt 1 0),
   GameAction.SelectChainToCreate 1 Chain.Tower,
   GameAction.PurchaseStock 1 noBuy,
   GameAction.PlaceTile 0 (tlAt 2 0), GameAction.PurchaseStock 0 noBuy,
   GameAction.PlaceTile 1 (tlAt 3 0), GameAction.PurchaseStock 1 noBuy,
   GameAction.PlaceTile 0 (tlAt 4 0), GameAction.PurchaseStock 0 noBuy,
   GameAction.PlaceTile 1 (tlAt 5 0), GameAction.PurchaseStock 1 noBuy,
   GameAction.PlaceTile 0 (tlAt 6 0), GameAction.PurchaseStock 0 noBuy,
   GameAction.PlaceTile 1 (tlAt 7 0), GameAction.PurchaseStock 1 noBuy,
   GameAction.PlaceTile 0 (tlAt 8 0), GameAction.PurchaseStock 0 noBuy,
   GameAction.PlaceTile 1 (tlAt 9 0), GameAction.PurchaseStock 1 noBuy,
   GameAction.PlaceTile 0 (tlAt 10 0), GameAction.PurchaseStock 0 noBuy,
   GameAction.PlaceTile 1 (tlAt 11 0), GameAction.PurchaseStock 1 noBuy,
   GameAction.PlaceTile 0 (tlAt 0 2), GameAction.PurchaseStock 0 noBuy,
   GameAction.PlaceTile 1 (tlAt 1 2),
   GameAction.SelectChainToCreate 1 Chain.Luxor,
   GameAction.PurchaseStock 1 noBuy,
   GameAction.PlaceTile 0 (tlAt 2 2), GameAction.PurchaseStock 0 noBuy,
   GameAction.PlaceTile 1 (tlAt 3 2), GameAction.PurchaseStock 1 noBuy,
   GameAction.PlaceTile 0 (tlAt 4 2), GameAction.PurchaseStock 0 noBuy,
   GameAction.PlaceTile 1 (tlAt 5 2), GameAction.PurchaseStock 1 noBuy,
   GameAction.PlaceTile 0 (tlAt 6 2), GameAction.PurchaseStock 0 noBuy,
   GameAction.PlaceTile 1 (tlAt 7 2), GameAction.PurchaseStock 1 noBuy,
   GameAction.PlaceTile 0 (tlAt 8 2), GameAction.PurchaseStock 0 noBuy,
   GameAction.PlaceTile 1 (tlAt 9 2), GameAction.PurchaseStock 1 noBuy,
   GameAction.PlaceTile 0 (tlAt 10 2), GameAction.PurchaseStock 0 noBuy]

/-- C3: the tile-conservation equality of the claim fails on a reachable
state.  After the 23 legal turns of `c3Actions` the automatic trade-in of
`player_trade_in_illegal_tiles` has discarded the permanently illegal tile
B11 without returning it to the bag, the hands or the board: the census is
35 on a 36-slot board. -/
theorem C3_tile_conservation_counterexample :
    ∃ a : Acquire, Reachable c3Opts a ∧
      ¬ (totalTiles a = c3Opts.grid_width * c3Opts.grid_height) := by
  have hv : (match runSeq (Acquire.new c3Deck c3Opts) c3Actions with
      | some b => decide (¬ (totalTiles b =
          c3Opts.grid_width * c3Opts.grid_height))
      | none => false) = true := by decide
  cases hrun : runSeq (Acquire.new c3Deck c3Opts) c3Actions with
  | none =>
    rw [hrun] at hv
    cases hv
  | some fin =>
    rw [hrun] at hv
    exact ⟨fin,
      reachable_runSeq c3Opts c3Actions _ fin
        (Reachable.init c3Deck (by decide)) hrun,
      of_decide_eq_true hv⟩
